import Mathlib

/-!
# Verification of the notification-graph core

A shallow embedding of the `notification_graph` package (`core.py`,
`notification_behaviors.py`, `util.py`) together with proofs and refutations
of the specification claims.

Conventions of the embedding:
* Python `dict`s become association lists (`List (k × v)`), updated in place
  (replace the first binding, else append), mirroring insertion-ordered dicts.
* Python `set`s of items become duplicate-free `List`s in insertion order
  (`addToSet`); Python iterates sets in an unspecified order, the embedding
  iterates them in insertion order.
* Object identity of `NotificationItem` / `NotificationGraph` /
  behavior instances becomes indices (`ItemId`, `GraphId`, `BehaviorId`)
  into the state / a behavior table.
* Unbounded recursion (attribute propagation, `walk_through`) is embedded with
  an explicit `fuel` counter; `none` means the fuel ran out (the recursion in
  the source is unbounded), `some` results are results of the source program.
* A raised Python exception is an `Except.error` value paired with the state
  at the moment of the raise: mutations performed before the raise persist,
  exactly as in Python.
-/

namespace NotifGraph

/-- Notification-type identifiers (Python: arbitrary hashable, strings in all
uses of this repository). -/
abbrev Ident := String

/-- Attribute names. -/
abbrev AttrName := String

/-- Items are identified by their index in the state's item list. -/
abbrev ItemId := Nat

/-- Graphs are identified by their index in the state's graph list. -/
abbrev GraphId := Nat

/-- Behavior instances are identified by an index into a behavior table. -/
abbrev BehaviorId := Nat

/-- Attribute values occurring in the program: booleans (`NotifySubscribers`)
and integers (`CountAttribute`). -/
inductive Val where
  | b (b : Bool)
  | i (n : Int)
deriving DecidableEq, Repr

/-- Python truthiness of a value (`if value:`); `bool` is its own truth,
an int is truthy iff nonzero. -/
def Val.truthy : Val → Bool
  | .b x => x
  | .i n => n != 0

/-- A value used as an `int`; in Python `bool` is a subclass of `int`
(`True == 1`, `False == 0`). -/
def Val.asInt : Val → Int
  | .b x => if x then 1 else 0
  | .i n => n

/-- Kinds of exceptions raised by the source (spec section 7). -/
inductive Err where
  | selfSubscription        -- `assert self is not item` in subscribe
  | circularSubscription    -- `assert item is not subscriber` in the cycle check
  | assertionFailure        -- other failing asserts in do_post_subscribe
  | nameError               -- NameError raised by a behavior
  | attributeError          -- AttributeError (handle access, None.attribute)
  | keyError                -- KeyError (missing type, duplicate add_notification)
  | typeError               -- TypeError from check_type
  | graphDestroyed          -- ValueError from NotificationGraph.__getattribute__
deriving DecidableEq, Repr

deriving instance DecidableEq for Except

/-- Lookup in an association list (Python `dict.get`). -/
def lookupA {α β : Type} [DecidableEq α] : List (α × β) → α → Option β
  | [], _ => none
  | (k, v) :: rest, key => if k = key then some v else lookupA rest key

/-- Update-or-append in an association list (Python `dict[k] = v`):
replace the first binding of the key, keep the position; else append. -/
def setA {α β : Type} [DecidableEq α] : List (α × β) → α → β → List (α × β)
  | [], key, v => [(key, v)]
  | (k, w) :: rest, key, v =>
      if k = key then (k, v) :: rest else (k, w) :: setA rest key v

/-- Insert into a Python set represented as a duplicate-free list
(`set.add`): append if not present. -/
def addToSet {α : Type} [DecidableEq α] (l : List α) (x : α) : List α :=
  if x ∈ l then l else l ++ [x]

/-- Union of two Python sets represented as lists (`s |= t`). -/
def setUnion {α : Type} [DecidableEq α] (l : List α) (r : List α) : List α :=
  r.foldl addToSet l

/-- `NotificationAttributeSet`: the owned layer (`__attribute_dict`) and the
inherited layer (`__inherited_attribute_dict`, "cache"). -/
structure AttrSet where
  attrs : List (AttrName × Val)
  cache : List (AttrName × Val)
deriving DecidableEq, Repr

/-- A fresh attribute set with given owned attributes and empty cache. -/
def AttrSet.mk0 (attrs : List (AttrName × Val)) : AttrSet := ⟨attrs, []⟩

/-- `get_attribute(attribute, default)`. -/
def AttrSet.getAttrD (a : AttrSet) (name : AttrName) (d : Val) : Val :=
  (lookupA a.attrs name).getD d

/-- `set_attribute`. -/
def AttrSet.setAttr (a : AttrSet) (name : AttrName) (v : Val) : AttrSet :=
  { a with attrs := setA a.attrs name v }

/-- `has_attribute`. -/
def AttrSet.hasAttr (a : AttrSet) (name : AttrName) : Bool :=
  (lookupA a.attrs name).isSome

/-- `get_cache(attribute, default)`. -/
def AttrSet.getCacheD (a : AttrSet) (name : AttrName) (d : Val) : Val :=
  (lookupA a.cache name).getD d

/-- `set_cache`. -/
def AttrSet.setCache (a : AttrSet) (name : AttrName) (v : Val) : AttrSet :=
  { a with cache := setA a.cache name v }

/-- `has_cache`. -/
def AttrSet.hasCache (a : AttrSet) (name : AttrName) : Bool :=
  (lookupA a.cache name).isSome

/-- A behavior instance.  `countAttribute` carries the normalized
configuration of `CountAttribute.__init__`: a list of
(counted attribute name, count-storage name, count function). -/
inductive Behavior where
  | notifySubscribers (attributeName : AttrName)
  | countAttribute (attributes : List (AttrName × AttrName × (Val → Int)))

/-- `CountAttribute.default_count_function`: an int counts as itself
(Python `bool` is an `int`: `True` counts as 1, `False` as 0). -/
def defaultCountFunction : Val → Int := Val.asInt

/-- The storage names of a `CountAttribute` configuration
(`CountAttribute.__storages`). -/
def caStorages (attrs : List (AttrName × AttrName × (Val → Int))) : List AttrName :=
  attrs.map (fun e => e.2.1)

/-- Look up the (storage name, count function) registered for a counted
attribute (`CountAttribute.__attributes.get`). -/
def caCounted (attrs : List (AttrName × AttrName × (Val → Int)))
    (name : AttrName) : Option (AttrName × (Val → Int)) :=
  lookupA (attrs.map (fun e => (e.1, e.2))) name

/-- `INotificationBehaviorInterface.get_interested_attributes`:
default `[]`, the counted attribute names for `CountAttribute`. -/
def Behavior.interestedAttributes : Behavior → List AttrName
  | .notifySubscribers _ => []
  | .countAttribute attrs => attrs.map (fun e => e.1)

/-- Behavior instances in play, keyed by identity. -/
abbrev BehaviorTable := List (BehaviorId × Behavior)

/-- `NotificationItem`: graph back-reference, `__notification_behaviors`,
`__notification_attributes`, `__notifier_set`, `__subscriber_set`. -/
structure Item where
  graph : Option GraphId
  behaviors : List (Ident × BehaviorId)
  attributes : List (Ident × AttrSet)
  notifiers : List ItemId
  subscribers : List ItemId
deriving DecidableEq, Repr

/-- A fresh isolated item (`NotificationItem.__init__`). -/
def emptyItem : Item := ⟨none, [], [], [], []⟩

/-- `NotificationGraph` fields: `__items`, `__behaviors` (behavior registry),
`__interest_attributes`, `__head`, `__is_tree`, `__graph_head_count`,
`_destroyed`. -/
structure Graph where
  items : List ItemId
  behaviors : List (BehaviorId × List Ident)
  interest : List ((Ident × AttrName) × List BehaviorId)
  head : Option ItemId
  isTree : Bool
  headCount : Nat
  destroyed : Bool
deriving DecidableEq, Repr

/-- A fresh graph (`NotificationGraph.__init__`). -/
def emptyGraph : Graph := ⟨[], [], [], none, true, 0, false⟩

/-- The whole program state: all items and all graphs ever created. -/
structure St where
  items : List Item
  graphs : List Graph
deriving DecidableEq, Repr

/-- The state consisting of `n` fresh isolated items. -/
def initSt (n : Nat) : St := ⟨List.replicate n emptyItem, []⟩

/-- Read an item (out-of-range ids read as a fresh item; well-formed states
never index out of range). -/
def getItem (st : St) (i : ItemId) : Item := st.items.getD i emptyItem

/-- Replace an item in place. -/
def modifyItem (st : St) (i : ItemId) (f : Item → Item) : St :=
  { st with items := st.items.set i (f (getItem st i)) }

/-- Read a graph. -/
def getGraph (st : St) (g : GraphId) : Graph := st.graphs.getD g emptyGraph

/-- Replace a graph in place. -/
def modifyGraph (st : St) (g : GraphId) (f : Graph → Graph) : St :=
  { st with graphs := st.graphs.set g (f (getGraph st g)) }

/-- `item.graph`. -/
def itemGraph (st : St) (i : ItemId) : Option GraphId := (getItem st i).graph

/-- `item.notifier_items`. -/
def notifiersOf (st : St) (i : ItemId) : List ItemId := (getItem st i).notifiers

/-- `item.subscriber_items`. -/
def subscribersOf (st : St) (i : ItemId) : List ItemId := (getItem st i).subscribers

/-- `item.is_single`. -/
def isSingle (st : St) (i : ItemId) : Bool := (itemGraph st i).isNone

/-- `item.is_head`: no graph, or the graph's head is this item. -/
def isHead (st : St) (i : ItemId) : Bool :=
  match itemGraph st i with
  | none => true
  | some g => (getGraph st g).head = some i

/-- `item.is_head_of_tree`: no graph, or the graph is a tree and its head is
this item. -/
def isHeadOfTree (st : St) (i : ItemId) : Bool :=
  match itemGraph st i with
  | none => true
  | some g => (getGraph st g).isTree && (getGraph st g).head = some i

/-- `item.is_in_same_graph(other)`. -/
def isInSameGraph (st : St) (a b : ItemId) : Bool :=
  match itemGraph st a with
  | none => false
  | some g => itemGraph st b = some g

/-- `item.get_attribute_set(identifier)` (without creation). -/
def getAttrSet (st : St) (i : ItemId) (ident : Ident) : Option AttrSet :=
  lookupA (getItem st i).attributes ident

/-- `item.get_attribute_set(identifier, create_if_not_exist=True)`:
returns the (possibly freshly created) set and the updated state. -/
def getAttrSetCreate (st : St) (i : ItemId) (ident : Ident) : AttrSet × St :=
  match getAttrSet st i ident with
  | some a => (a, st)
  | none =>
      (⟨[], []⟩,
        modifyItem st i fun it =>
          { it with attributes := setA it.attributes ident ⟨[], []⟩ })

/-- Write through to the attribute set stored at `(i, ident)` (mutating the
Python attribute-set object in place); no-op if the set does not exist. -/
def modifyAttrSet (st : St) (i : ItemId) (ident : Ident)
    (f : AttrSet → AttrSet) : St :=
  modifyItem st i fun it =>
    match lookupA it.attributes ident with
    | none => it
    | some a => { it with attributes := setA it.attributes ident (f a) }

/-- Owned-layer lookup, as an accessor for statements. -/
def ownedLookup (st : St) (i : ItemId) (ident : Ident) (name : AttrName) :
    Option Val :=
  match getAttrSet st i ident with
  | none => none
  | some a => lookupA a.attrs name

/-- Inherited-layer (cache) lookup, as an accessor for statements. -/
def cacheLookup (st : St) (i : ItemId) (ident : Ident) (name : AttrName) :
    Option Val :=
  match getAttrSet st i ident with
  | none => none
  | some a => lookupA a.cache name

/-! ## The `NotifySubscribers` behavior -/

/-- `NotifySubscribers.__get_gathered_value`: Python `a or b` returns the
first operand if it is truthy, else the second. -/
def nsGathered (a : AttrSet) (an : AttrName) : Val :=
  let o := a.getAttrD an (.b false)
  if o.truthy then o else a.getCacheD an (.b false)

/-- `NotifySubscribers.__recursive_set_true`, with the depth-first recursion
over `item.subscriber_items` expressed as an explicit stack (the items are
processed in exactly the order of the source recursion) and a fuel counter.
One step: fetch the attribute set (creating it if absent), stop on this item
if its cache is already truthy, else set the cache to `True` and descend into
the subscribers. -/
def setTrueRun (an : AttrName) (ident : Ident) :
    Nat → List ItemId → St → Option St
  | 0, _, _ => none
  | _ + 1, [], st => some st
  | fuel + 1, i :: stack, st =>
      let p := getAttrSetCreate st i ident
      if (p.1.getCacheD an (.b false)).truthy then
        setTrueRun an ident fuel stack p.2
      else
        let st2 := modifyAttrSet p.2 i ident (fun a => a.setCache an (.b true))
        setTrueRun an ident fuel (subscribersOf st2 i ++ stack) st2

/-- `NotifySubscribers.__recursive_set_false`, stack form like `setTrueRun`.
One step: skip this item if it has no attribute set or its cache is already
falsy, or if any of its notifiers still gathers a truthy value; else clear
the cache and descend into the subscribers. -/
def setFalseRun (an : AttrName) (ident : Ident) :
    Nat → List ItemId → St → Option St
  | 0, _, _ => none
  | _ + 1, [], st => some st
  | fuel + 1, i :: stack, st =>
      match getAttrSet st i ident with
      | none => setFalseRun an ident fuel stack st
      | some aset =>
          if !(aset.getCacheD an (.b false)).truthy then
            setFalseRun an ident fuel stack st
          else if (notifiersOf st i).any (fun j =>
              match getAttrSet st j ident with
              | none => false
              | some nas => (nsGathered nas an).truthy) then
            setFalseRun an ident fuel stack st
          else
            let st2 := modifyAttrSet st i ident (fun a => a.setCache an (.b false))
            setFalseRun an ident fuel (subscribersOf st2 i ++ stack) st2

/-- `NotifySubscribers.set_attribute`.  `check_type(value, bool)` rejects
non-bool values; the owned value is always written; propagation runs only if
the gathered value changed. -/
def nsSetAttribute (an : AttrName) (fuel : Nat) (st : St) (i : ItemId)
    (ident : Ident) (name : AttrName) (v : Val) :
    Option ((Except Err Unit) × St) :=
  if name = an then
    match v with
    | .i _ => some (.error .typeError, st)
    | .b bv =>
        match getAttrSet st i ident with
        | none => some (.error .keyError, st)  -- the handle held this set; unreachable
        | some aset =>
            let old := nsGathered aset an
            let st1 := modifyAttrSet st i ident (fun a => a.setAttr an (.b bv))
            match getAttrSet st1 i ident with
            | none => some (.error .keyError, st1)  -- unreachable
            | some aset1 =>
                if nsGathered aset1 an = old then some (.ok (), st1)
                else if bv then
                  (setTrueRun an ident fuel (subscribersOf st1 i) st1).map
                    (fun st2 => (.ok (), st2))
                else
                  (setFalseRun an ident fuel (subscribersOf st1 i) st1).map
                    (fun st2 => (.ok (), st2))
  else some (.error .nameError, st)

/-- `NotifySubscribers.pre_subscribe` body.  The caller
(`NotificationGraph.do_pre_subscribe`) passes a *single* identifier where the
interface documents a set of identifiers; `for identifier in
related_identifiers` therefore iterates over the characters of the identifier
string, and each character is looked up as an identifier of its own. -/
def nsPreSubscribeChars (an : AttrName) (fuel : Nat) (sub notif : ItemId) :
    List Char → St → Option St
  | [], st => some st
  | c :: rest, st =>
      match getAttrSet st notif (String.singleton c) with
      | none => nsPreSubscribeChars an fuel sub notif rest st
      | some aset =>
          if (nsGathered aset an).truthy then
            match setTrueRun an (String.singleton c) fuel [sub] st with
            | none => none
            | some st1 => nsPreSubscribeChars an fuel sub notif rest st1
          else nsPreSubscribeChars an fuel sub notif rest st

/-- `NotifySubscribers.pre_subscribe(subscriber, notifier,
related_identifiers)` as invoked by `do_pre_subscribe`: `relatedIdentifiers`
is the bare identifier string that the caller passes in place of a set. -/
def nsPreSubscribeHook (an : AttrName) (fuel : Nat) (sub notif : ItemId)
    (relatedIdentifiers : String) (st : St) : Option St :=
  nsPreSubscribeChars an fuel sub notif relatedIdentifiers.data st

/-! ## The `CountAttribute` behavior -/

/-- `CountAttribute.__recursive_modify_count`, stack form with an explicit
`visited` set (the Python set shared by the whole propagation).  One step:
stop on this item if the delta is zero or the item was already visited, else
mark it visited, add the delta to its cached count and descend into the
subscribers. -/
def modifyCountRun (ident : Ident) (cName : AttrName) (delta : Int) :
    Nat → List ItemId → List ItemId → St → Option St
  | 0, _, _, _ => none
  | _ + 1, [], _, st => some st
  | fuel + 1, i :: stack, visited, st =>
      if delta = 0 || i ∈ visited then
        modifyCountRun ident cName delta fuel stack visited st
      else
        let p := getAttrSetCreate st i ident
        let old := (p.1.getCacheD cName (.i 0)).asInt
        let st2 := modifyAttrSet p.2 i ident
          (fun a => a.setCache cName (.i (old + delta)))
        modifyCountRun ident cName delta fuel
          (subscribersOf st2 i ++ stack) (i :: visited) st2

/-- The loop `for subscriber in handle.item.subscriber_items:
__recursive_modify_count(subscriber, ...)` of the direct-storage-write
branch: each call starts with `visited=None`, i.e. a fresh visited set. -/
def modifyCountEach (ident : Ident) (cName : AttrName) (delta : Int)
    (fuel : Nat) : List ItemId → St → Option St
  | [], st => some st
  | s :: rest, st =>
      match modifyCountRun ident cName delta fuel [s] [] st with
      | none => none
      | some st1 => modifyCountEach ident cName delta fuel rest st1

/-- `CountAttribute.set_attribute`.  A storage name is written directly
(owned layer) and the difference is propagated to the subscribers
(`check_type(value, int)` passes for Python bools too, which are ints); a
counted attribute name computes the count delta against the currently owned
value (0 contribution if not yet set) and propagates starting at the item
itself; any other name raises `NameError`. -/
def caSetAttribute (attrs : List (AttrName × AttrName × (Val → Int)))
    (fuel : Nat) (st : St) (i : ItemId) (ident : Ident) (name : AttrName)
    (v : Val) : Option ((Except Err Unit) × St) :=
  if name ∈ caStorages attrs then
    let p := getAttrSetCreate st i ident
    let old := (p.1.getAttrD name (.i 0)).asInt
    let st2 := modifyAttrSet p.2 i ident (fun a => a.setAttr name v)
    (modifyCountEach ident name (v.asInt - old) fuel (subscribersOf st2 i) st2).map
      (fun s => (.ok (), s))
  else
    match caCounted attrs name with
    | some cf =>
        match getAttrSet st i ident with
        | none =>
            (modifyCountRun ident cf.1 (cf.2 v) fuel [i] [] st).map
              (fun s => (.ok (), s))
        | some aset =>
            match lookupA aset.attrs name with
            | none =>
                (modifyCountRun ident cf.1 (cf.2 v) fuel [i] [] st).map
                  (fun s => (.ok (), s))
            | some w =>
                (modifyCountRun ident cf.1 (cf.2 v - cf.2 w) fuel [i] [] st).map
                  (fun s => (.ok (), s))
    | none => some (.error .nameError, st)

/-- `CountAttribute.get_attribute` / `__calculate_total`: the owned value
plus the cached value of a storage name, `NameError` otherwise. -/
def caGetAttribute (attrs : List (AttrName × AttrName × (Val → Int)))
    (aset : AttrSet) (name : AttrName) : Except Err Val :=
  if name ∈ caStorages attrs then
    .ok (.i ((aset.getAttrD name (.i 0)).asInt + (aset.getCacheD name (.i 0)).asInt))
  else .error .nameError

/-- `NotifySubscribers.get_attribute`. -/
def nsGetAttribute (an : AttrName) (aset : AttrSet) (name : AttrName) :
    Except Err Val :=
  if name = an then .ok (nsGathered aset an) else .error .nameError

/-! ## Behavior dispatch and the attribute handle -/

/-- Dispatch `set_attribute` on a behavior instance. -/
def behaviorSetAttribute (bt : BehaviorTable) (bid : BehaviorId) (fuel : Nat)
    (st : St) (i : ItemId) (ident : Ident) (name : AttrName) (v : Val) :
    Option ((Except Err Unit) × St) :=
  match lookupA bt bid with
  | some (.notifySubscribers an) => nsSetAttribute an fuel st i ident name v
  | some (.countAttribute attrs) => caSetAttribute attrs fuel st i ident name v
  | none => some (.error .keyError, st)  -- unregistered behavior id; unreachable

/-- Dispatch `get_attribute` on a behavior instance. -/
def behaviorGetAttribute (bt : BehaviorTable) (bid : BehaviorId)
    (aset : AttrSet) (name : AttrName) : Except Err Val :=
  match lookupA bt bid with
  | some (.notifySubscribers an) => nsGetAttribute an aset name
  | some (.countAttribute attrs) => caGetAttribute attrs aset name
  | none => .error .keyError

/-- The interest bucket `__interest_attributes.get((identifier, name), None)`
of a graph, as a list of behaviors (empty if absent). -/
def interestLookup (st : St) (g : GraphId) (ident : Ident) (name : AttrName) :
    List BehaviorId :=
  (lookupA (getGraph st g).interest (ident, name)).getD []

/-- `NotificationGraph.notify_pre_set_attribute`: invoke `set_attribute` of
every interested behavior, in bucket order; an error aborts the loop and
propagates (there is no try/except around it). -/
def interestDispatch (bt : BehaviorTable) (fuel : Nat) (i : ItemId)
    (ident : Ident) (name : AttrName) (v : Val) :
    List BehaviorId → St → Option ((Except Err Unit) × St)
  | [], st => some (.ok (), st)
  | bid :: rest, st =>
      match behaviorSetAttribute bt bid fuel st i ident name v with
      | none => none
      | some (.ok _, st1) => interestDispatch bt fuel i ident name v rest st1
      | some (.error e, st1) => some (.error e, st1)

/-- `item[identifier].set_attribute(name, value)`: create the handle
(`__getitem__` raises `KeyError` for an unknown identifier), run the graph's
interest pre-dispatch if the item has a graph, then the handle's own
behavior; a `NameError` of the owning behavior is reported as an
`AttributeError` (mutations made by the interest dispatch persist). -/
def setAttributeOp (bt : BehaviorTable) (fuel : Nat) (st : St) (i : ItemId)
    (ident : Ident) (name : AttrName) (v : Val) :
    Option ((Except Err Unit) × St) :=
  match lookupA (getItem st i).behaviors ident with
  | none => some (.error .keyError, st)
  | some bid =>
    match getAttrSet st i ident with
    | none => some (.error .keyError, st)
    | some _ =>
      let afterDispatch : Option ((Except Err Unit) × St) :=
        match itemGraph st i with
        | none => some (.ok (), st)
        | some g =>
            interestDispatch bt fuel i ident name v (interestLookup st g ident name) st
      match afterDispatch with
      | none => none
      | some (.error e, st1) => some (.error e, st1)
      | some (.ok _, st1) =>
          match behaviorSetAttribute bt bid fuel st1 i ident name v with
          | none => none
          | some (.error .nameError, st2) => some (.error .attributeError, st2)
          | some (r, st2) => some (r, st2)

/-- `item[identifier].get_attribute(name)`: create the handle, dispatch to
the behavior's `get_attribute`; a `NameError` is reported as an
`AttributeError`.  The state is returned unchanged on every path because no
statement of the source writes. -/
def getAttributeOp (bt : BehaviorTable) (st : St) (i : ItemId) (ident : Ident)
    (name : AttrName) : (Except Err Val) × St :=
  match lookupA (getItem st i).behaviors ident with
  | none => (.error .keyError, st)
  | some bid =>
    match getAttrSet st i ident with
    | none => (.error .keyError, st)
    | some aset =>
      match behaviorGetAttribute bt bid aset name with
      | .error .nameError => (.error .attributeError, st)
      | r => (r, st)

/-! ## Traversal (`NotificationItem.walk_through`)

`walk_through` is a recursive generator.  Each invocation creates its *own*
`visited` set (or `None` when the item's graph is absent or a tree) — the set
is *not* shared with the recursive calls.  The embedding defunctionalizes the
generator into a stack of frames, one frame per active invocation, holding
the invocation's remaining iteration list and its own local visited set.
The `assertion` and `terminate` parameters keep their default values in every
use inside the package (the always-true assertion never stops anything), so
they are not modeled. -/

/-- The iteration list of a `walk_through(upstream)` invocation:
`__subscriber_set` if upstream else `__notifier_set`. -/
def edgeList (st : St) (upstream : Bool) (i : ItemId) : List ItemId :=
  if upstream then subscribersOf st i else notifiersOf st i

/-- The frame a `walk_through(upstream)` invocation on item `i` starts with:
the iteration list and the invocation's local visited set (`None` when the
graph is absent or a tree). -/
def newFrame (st : St) (upstream : Bool) (i : ItemId) :
    List ItemId × Option (List ItemId) :=
  (edgeList st upstream i,
   match itemGraph st i with
   | none => none
   | some g => if (getGraph st g).isTree then none else some [])

/-- Run the stack of `walk_through` frames, producing the yielded sequence.
On item `i`: skip it if it is in the current frame's local visited set, else
yield it, add it to this frame's visited set, and push the frame of the
recursive call on `i`. -/
def walkRun (st : St) (upstream : Bool) :
    Nat → List (List ItemId × Option (List ItemId)) → Option (List ItemId)
  | 0, _ => none
  | _ + 1, [] => some []
  | fuel + 1, ([], _) :: frames => walkRun st upstream fuel frames
  | fuel + 1, (i :: rest, vis) :: frames =>
      match vis with
      | some v =>
          if i ∈ v then walkRun st upstream fuel ((rest, some v) :: frames)
          else
            (walkRun st upstream fuel
              (newFrame st upstream i :: (rest, some (i :: v)) :: frames)).map
              (fun l => i :: l)
      | none =>
          (walkRun st upstream fuel
            (newFrame st upstream i :: (rest, none) :: frames)).map
            (fun l => i :: l)

/-- `item.walk_through(upstream)` (with the default assertion), as the list
of yielded items. -/
def walkThrough (st : St) (upstream : Bool) (i : ItemId) (fuel : Nat) :
    Option (List ItemId) :=
  walkRun st upstream fuel [newFrame st upstream i]

/-! ## The subscription transaction -/

/-- `util.merge_dict_set_values` on a dict whose values are sets. -/
def mergeDictSetValues {κ α : Type} [DecidableEq κ] [DecidableEq α]
    (main branch : List (κ × List α)) : List (κ × List α) :=
  branch.foldl (fun m kv =>
    match lookupA m kv.1 with
    | none => m ++ [kv]
    | some mv => setA m kv.1 (setUnion mv kv.2)) main

/-- `util.EGraphCondition`. -/
inductive GraphCond where
  | bothSingle | subscriberSingle | notifierSingle | bothGraph
deriving DecidableEq, Repr

/-- `EGraphCondition.get_condition`. -/
def getCondition : Option GraphId → Option GraphId → GraphCond
  | none, none => .bothSingle
  | none, some _ => .subscriberSingle
  | some _, none => .notifierSingle
  | some _, some _ => .bothGraph

/-- The behavior registry of an item's graph (empty when the item is
isolated; only read when the graph exists). -/
def graphBehaviorsOf (st : St) (i : ItemId) : List (BehaviorId × List Ident) :=
  match itemGraph st i with
  | none => []
  | some g => (getGraph st g).behaviors

/-- `NotificationGraph.__add_behaviors`: `setdefault(behavior, set()).add
(identifier)` for every (identifier, behavior) pair. -/
def addBehaviors (dict : List (BehaviorId × List Ident))
    (pairs : List (Ident × BehaviorId)) : List (BehaviorId × List Ident) :=
  pairs.foldl (fun d p =>
    setA d p.2 (addToSet ((lookupA d p.2).getD []) p.1)) dict

/-- The sequence of `pre_subscribe` invocations performed by
`do_pre_subscribe`: one call per (behavior, identifier) pair of the registry,
each passing the *single* identifier as the `related_identifiers` argument. -/
def preSubscribeCalls (registry : List (BehaviorId × List Ident)) :
    List (BehaviorId × Ident) :=
  registry.flatMap (fun p => p.2.map (fun ident => (p.1, ident)))

/-- Execute the `pre_subscribe` hooks in call order.  `NotifySubscribers`
runs `nsPreSubscribeHook`; `CountAttribute` inherits the interface default,
which does nothing. -/
def runPreSubscribeHooks (bt : BehaviorTable) (fuel : Nat) (sub notif : ItemId) :
    List (BehaviorId × Ident) → St → Option St
  | [], st => some st
  | c :: rest, st =>
      let step : Option St :=
        match lookupA bt c.1 with
        | some (.notifySubscribers an) => nsPreSubscribeHook an fuel sub notif c.2 st
        | some (.countAttribute _) => some st
        | none => some st
      match step with
      | none => none
      | some st1 => runPreSubscribeHooks bt fuel sub notif rest st1

/-- The cycle check of `do_pre_subscribe`: only the both-graph condition
walks downstream from the notifier looking for the subscriber;
`some true` = cycle detected, `none` = the walk ran out of fuel. -/
def preCircularCheck (fuel : Nat) (st : St) (sub notif : ItemId)
    (cond : GraphCond) (checkCircular : Bool) : Option Bool :=
  match cond with
  | .bothGraph =>
      if checkCircular then
        match walkThrough st false notif fuel with
        | none => none
        | some l => some (decide (sub ∈ l))
      else some false
  | _ => some false

/-- The behavior-registry computation of `do_pre_subscribe`, per condition. -/
def preRegistry (st : St) (sub notif : ItemId) (cond : GraphCond) :
    List (BehaviorId × List Ident) :=
  match cond with
  | .bothSingle =>
      addBehaviors [] ((getItem st sub).behaviors ++ (getItem st notif).behaviors)
  | .notifierSingle =>
      addBehaviors (graphBehaviorsOf st sub) (getItem st notif).behaviors
  | .subscriberSingle =>
      addBehaviors (graphBehaviorsOf st notif) (getItem st sub).behaviors
  | .bothGraph =>
      mergeDictSetValues (graphBehaviorsOf st sub) (graphBehaviorsOf st notif)

/-- `NotificationGraph.do_pre_subscribe`: classify the condition, perform the
cycle check in the both-graph case (raising before anything is mutated),
build the behavior registry, then fire the hooks.  (In Python the registry
of the non-both-single conditions aliases a graph's dict; the write-back
happens in `do_post_subscribe`, which this embedding mirrors by treating the
registry as a value installed in the post phase.) -/
def doPreSubscribe (bt : BehaviorTable) (fuel : Nat) (st : St)
    (sub notif : ItemId) (checkCircular : Bool) :
    Option ((Except Err (GraphCond × List (BehaviorId × List Ident))) × St) :=
  match preCircularCheck fuel st sub notif
      (getCondition (itemGraph st sub) (itemGraph st notif)) checkCircular with
  | none => none
  | some true => some (.error .circularSubscription, st)
  | some false =>
      match runPreSubscribeHooks bt fuel sub notif
          (preSubscribeCalls (preRegistry st sub notif
            (getCondition (itemGraph st sub) (itemGraph st notif)))) st with
      | none => none
      | some st1 =>
          some (.ok (getCondition (itemGraph st sub) (itemGraph st notif),
            preRegistry st sub notif
              (getCondition (itemGraph st sub) (itemGraph st notif))), st1)

/-- The edge mutation of `NotificationItem.subscribe`:
`item.__subscriber_set.add(self); self.__notifier_set.add(item)`. -/
def addEdge (st : St) (sub notif : ItemId) : St :=
  let st1 := modifyItem st notif
    (fun it => { it with subscribers := addToSet it.subscribers sub })
  modifyItem st1 sub (fun it => { it with notifiers := addToSet it.notifiers notif })

/-- `subscriber.graph.is_tree` (only read behind an `is_single` guard). -/
def graphIsTreeOf (st : St) (i : ItemId) : Bool :=
  match itemGraph st i with
  | none => false
  | some g => (getGraph st g).isTree

/-- `NotificationGraph.is_tree_after_connect`. -/
def isTreeAfterConnect (st : St) (sub notif : ItemId) : Bool :=
  (isSingle st sub || graphIsTreeOf st sub) && isHeadOfTree st notif

/-- `subscriber.graph.head`; reading it on an isolated item is Python's
`None.head`, an `AttributeError`. -/
def graphHeadExc (st : St) (i : ItemId) : Except Err (Option ItemId) :=
  match itemGraph st i with
  | none => .error .attributeError
  | some g => .ok (getGraph st g).head

/-- `subscriber.graph.__graph_head_count`; `AttributeError` on `None`. -/
def headCountExc (st : St) (i : ItemId) : Except Err Nat :=
  match itemGraph st i with
  | none => .error .attributeError
  | some g => .ok (getGraph st g).headCount

/-- `NotificationGraph.__collect_interest(item)`: register the item's
behaviors under (identifier, interested attribute) in the graph's interest
index. -/
def collectInterest (bt : BehaviorTable) (st : St) (g : GraphId) (i : ItemId) : St :=
  (getItem st i).behaviors.foldl (fun s p =>
    (match lookupA bt p.2 with
     | some b => b.interestedAttributes
     | none => []).foldl (fun s2 attr =>
      modifyGraph s2 g (fun gr =>
        let bucket := addToSet ((lookupA gr.interest (p.1, attr)).getD []) p.2
        { gr with interest := setA gr.interest (p.1, attr) bucket })) s) st

/-- The head / head-count computation of `do_post_subscribe` (the edge has
already been inserted when this runs, so `notifier.subscriber_items` always
contains the subscriber and is never empty). -/
def postHeadInfo (fuel : Nat) (st : St) (sub notif : ItemId) (isTree : Bool) :
    Option (Except Err (Option ItemId × Nat)) :=
  if isTree then
      if isSingle st sub then some (.ok (some sub, 1))
      else
        match graphHeadExc st sub with
        | .error e => some (.error e)
        | .ok h => some (.ok (h, 1))
    else if isInSameGraph st sub notif then
      match headCountExc st sub with
      | .error e => some (.error e)
      | .ok c0 =>
          if (subscribersOf st notif).isEmpty then
            if c0 ≤ 1 then some (.error .assertionFailure)
            else if c0 - 1 = 1 then
              if (subscribersOf st sub).isEmpty then some (.ok (some sub, c0 - 1))
              else
                match walkThrough st true sub fuel with
                | none => none
                | some l =>
                    match l.find? (fun j => (subscribersOf st j).isEmpty) with
                    | some h => some (.ok (some h, c0 - 1))
                    | none => some (.error .assertionFailure)
            else some (.ok (none, c0 - 1))
          else
            match graphHeadExc st sub with
            | .error e => some (.error e)
            | .ok h => some (.ok (h, c0))
    else if isHead st notif then
      match graphHeadExc st sub with
      | .error e => some (.error e)
      | .ok h =>
          match headCountExc st sub with
          | .error e => some (.error e)
          | .ok c => some (.ok (h, c))
    else
      match headCountExc st sub with
      | .error e => some (.error e)
      | .ok cs =>
          match headCountExc st notif with
          | .error e => some (.error e)
          | .ok cn =>
              some (.ok (none,
                if (subscribersOf st notif).isEmpty then cs + cn - 1 else cs + cn))

/-- The graph creation / extension / merger of `do_post_subscribe`, returning
the surviving graph. -/
def postBuild (bt : BehaviorTable) (st : St) (sub notif : ItemId)
    (cond : GraphCond) : Except Err (St × GraphId) :=
  match cond with
  | .bothSingle =>
      let gid := st.graphs.length
      let s1 := { st with graphs :=
        st.graphs ++ [{ emptyGraph with items := [sub, notif] }] }
      let s2 := collectInterest bt s1 gid sub
      let s3 := modifyItem s2 sub (fun it => { it with graph := some gid })
      let s4 := collectInterest bt s3 gid notif
      let s5 := modifyItem s4 notif (fun it => { it with graph := some gid })
      .ok (s5, gid)
  | .subscriberSingle =>
      match itemGraph st notif with
      | none => .error .attributeError
      | some gid =>
          let s1 := modifyGraph st gid
            (fun gr => { gr with items := addToSet gr.items sub })
          let s2 := collectInterest bt s1 gid sub
          let s3 := modifyItem s2 sub (fun it => { it with graph := some gid })
          .ok (s3, gid)
  | .notifierSingle =>
      match itemGraph st sub with
      | none => .error .attributeError
      | some gid =>
          let s1 := modifyGraph st gid
            (fun gr => { gr with items := addToSet gr.items notif })
          let s2 := collectInterest bt s1 gid notif
          let s3 := modifyItem s2 notif (fun it => { it with graph := some gid })
          .ok (s3, gid)
  | .bothGraph =>
      match itemGraph st sub with
      | none => .error .attributeError
      | some gid =>
          if isInSameGraph st sub notif then .ok (st, gid)
          else
            match itemGraph st notif with
            | none => .error .attributeError
            | some ab =>
                let s1 := modifyGraph st gid (fun gr =>
                  { gr with
                      items := setUnion gr.items (getGraph st ab).items,
                      interest := mergeDictSetValues gr.interest
                        (getGraph st ab).interest })
                let s2 := (getGraph st ab).items.foldl
                  (fun s j => modifyItem s j
                    (fun it => { it with graph := some gid })) s1
                let s3 := modifyGraph s2 ab (fun gr =>
                  { gr with items := [], behaviors := [], destroyed := true })
                .ok (s3, gid)

/-- `NotificationGraph.do_post_subscribe`: compute the tree flag, the head
and the head count, build/extend/merge the graph as dictated by the
condition, and install the registry, the tree flag, the head count and the
head on the surviving graph. -/
def doPostSubscribe (bt : BehaviorTable) (fuel : Nat) (st : St)
    (sub notif : ItemId) (cond : GraphCond)
    (registry : List (BehaviorId × List Ident)) :
    Option ((Except Err Unit) × St) :=
  match postHeadInfo fuel st sub notif (isTreeAfterConnect st sub notif) with
  | none => none
  | some (.error e) => some (.error e, st)
  | some (.ok hc) =>
      match postBuild bt st sub notif cond with
      | .error e => some (.error e, st)
      | .ok p =>
          some (.ok (), modifyGraph p.1 p.2 (fun gr =>
            { gr with behaviors := registry,
                      isTree := isTreeAfterConnect st sub notif,
                      headCount := hc.2, head := hc.1 }))


/-- `NotificationItem.subscribe(item, check_circular_subscription)`:
self-subscription assert, pre phase, edge mutation, post phase. -/
def subscribe (bt : BehaviorTable) (fuel : Nat) (st : St) (sub notif : ItemId)
    (checkCircular : Bool) : Option ((Except Err Unit) × St) :=
  if sub = notif then some (.error .selfSubscription, st)
  else
    match doPreSubscribe bt fuel st sub notif checkCircular with
    | none => none
    | some (.error e, st1) => some (.error e, st1)
    | some (.ok info, st1) =>
        doPostSubscribe bt fuel (addEdge st1 sub notif) sub notif info.1 info.2

/-! ## `add_notification` and guarded graph reads -/

/-- `NotificationType`: identifier, behavior instance, default attributes
(deep-copied per item; values are immutable here). -/
structure NType where
  identifier : Ident
  behavior : BehaviorId
  defaults : List (AttrName × Val)

/-- `NotificationItem.add_notification(type, **attributes)`: `KeyError` if
the identifier is present; otherwise seed the attribute set from the
overrides, with defaults filled in for missing keys (`setdefault`). -/
def addNotification (st : St) (i : ItemId) (nt : NType)
    (overrides : List (AttrName × Val)) : (Except Err Unit) × St :=
  if (lookupA (getItem st i).behaviors nt.identifier).isSome then
    (.error .keyError, st)
  else
    let attrs := nt.defaults.foldl
      (fun acc kv => if (lookupA acc kv.1).isSome then acc else acc ++ [kv])
      overrides
    (.ok (), modifyItem st i (fun it =>
      { it with behaviors := setA it.behaviors nt.identifier nt.behavior,
                attributes := setA it.attributes nt.identifier (AttrSet.mk0 attrs) }))

/-- Any attribute or method read on a graph object
(`NotificationGraph.__getattribute__`): fails with the graph-destroyed
error once the graph has been merged away. -/
def graphRead {α : Type} (st : St) (g : GraphId) (f : Graph → α) : Except Err α :=
  if (getGraph st g).destroyed then .error .graphDestroyed
  else .ok (f (getGraph st g))

/-! ## Reachability along edges -/

/-- Reachability within `k` steps along an edge function (used with
`notifiersOf` for downstream and `subscribersOf` for upstream walks). -/
def reachNB (e : St → ItemId → List ItemId) (st : St) :
    Nat → ItemId → ItemId → Bool
  | 0, u, v => u = v
  | k + 1, u, v => u = v || (e st u).any (fun w => reachNB e st k w v)

/-- `v` is downstream of `u` (reachable along notifier edges) within `k`
steps; `downWithin st k u u` always holds. -/
def downWithin (st : St) (k : Nat) (u v : ItemId) : Bool :=
  reachNB notifiersOf st k u v

/-- `v` is upstream of `u` (reachable along subscriber edges) within `k`
steps. -/
def upWithin (st : St) (k : Nat) (u v : ItemId) : Bool :=
  reachNB subscribersOf st k u v

/-- An edge walk from `u` to `v` whose successive nodes are `ws`, every
walked-to node avoiding the set `V`: `chainA e st V u ws v` holds iff
`ws = [w1, ..., wk]` with `w1 ∈ e st u`, `w(j+1) ∈ e st wj`, `v = wk`
(or `v = u` and `ws = []`), and no `wj` lies in `V`. -/
def chainA (e : St → ItemId → List ItemId) (st : St) (V : List ItemId) :
    ItemId → List ItemId → ItemId → Bool
  | u, [], v => u = v
  | u, w :: ws, v => (w ∈ e st u) && (w ∉ V) && chainA e st V w ws v

/-- Membership test against an optional visited set (`None` accepts
everything: no visited set is kept). -/
def notInVis : Option (List ItemId) → ItemId → Prop
  | none, _ => True
  | some v, c => c ∉ v

/-! ## Concrete scenario states

Helper steps that thread a state through a successful operation (any error
or fuel exhaustion collapses the scenario to `none`, so a scenario value of
`some st` certifies that every operation completed without an exception). -/

/-- Scenario step: `item.add_notification(type, **overrides)` succeeding. -/
def okAdd (nt : NType) (ov : List (AttrName × Val)) (i : ItemId) :
    Option St → Option St
  | none => none
  | some st =>
      match addNotification st i nt ov with
      | (.ok _, st1) => some st1
      | _ => none

/-- Scenario step: `sub.subscribe(notif)` succeeding. -/
def okSub (bt : BehaviorTable) (fuel : Nat) (sub notif : ItemId) :
    Option St → Option St
  | none => none
  | some st =>
      match subscribe bt fuel st sub notif true with
      | some (.ok _, st1) => some st1
      | _ => none

/-- Scenario step: `item[ident].set_attribute(name, v)` succeeding. -/
def okSet (bt : BehaviorTable) (fuel : Nat) (i : ItemId) (ident : Ident)
    (name : AttrName) (v : Val) : Option St → Option St
  | none => none
  | some st =>
      match setAttributeOp bt fuel st i ident name v with
      | some (.ok _, st1) => some st1
      | _ => none

/-- A behavior table holding one `NotifySubscribers('activate')` instance. -/
def btNS : BehaviorTable := [(0, .notifySubscribers "activate")]

/-- `NotificationType('red_point', NotifySubscribers('activate'))`. -/
def redType : NType := ⟨"red_point", 0, []⟩

/-- A second type bound to the *same* `NotifySubscribers` instance. -/
def blueType : NType := ⟨"blue_point", 0, []⟩

/-- Scenario S3 (dynamic join): items 0 = `i0`, 1 = `mid`, 2 = `i1`;
`i0` and `i1` carry the red-point type; `i0.subscribe(mid)`; set `i1`'s
`activate` to `True`; `mid.subscribe(i1)`. -/
def s3St : Option St :=
  some (initSt 3) |> okAdd redType [] 0 |> okAdd redType [] 2
    |> okSub btNS 99 0 1
    |> okSet btNS 99 2 "red_point" "activate" (.b true)
    |> okSub btNS 99 1 2

/-- Diamond graph for the traversal claim: item 0 subscribes 1 and 2, both
of which subscribe 3. -/
def s7St : Option St :=
  some (initSt 4) |> okSub [] 99 0 1 |> okSub [] 99 0 2
    |> okSub [] 99 1 3 |> okSub [] 99 2 3

/-- Registry computed by `do_pre_subscribe` when item 0 carries two types
(`red_point` and `blue_point`) sharing one `NotifySubscribers` instance and
subscribes the bare item 1. -/
def c3Registry : Option (List (BehaviorId × List Ident)) :=
  match some (initSt 2) |> okAdd redType [] 0 |> okAdd blueType [] 0 with
  | some st =>
      match doPreSubscribe btNS 99 st 0 1 true with
      | some (.ok info, _) => some info.2
      | _ => none
  | none => none

/-- Behavior table of the counter scenarios: a `NotifySubscribers('activate')`
and a `CountAttribute(activate='count_activate')` instance. -/
def btC : BehaviorTable :=
  [(0, .notifySubscribers "activate"),
   (1, .countAttribute [("activate", "count_activate", defaultCountFunction)])]

/-- `NotificationType('red_point', CountAttribute(activate='count_activate'))`
(the tests bind the counter behavior to the same identifier). -/
def counterType : NType := ⟨"red_point", 1, []⟩

/-- Scenario S4: counter item 0 subscribes red items 1 and 2; red item 1 is
then activated (count becomes 1). -/
def s4St : Option St :=
  some (initSt 3) |> okAdd counterType [] 0 |> okAdd redType [] 1
    |> okAdd redType [] 2
    |> okSub btC 99 0 1 |> okSub btC 99 0 2
    |> okSet btC 99 1 "red_point" "activate" (.b true)

/-- The S4 state as a plain state (for witnesses). -/
def w9St : St := s4St.getD (initSt 0)

/-- Dynamic join for the counter: counter item 0 subscribes red item 1; red
item 2 is activated while isolated; then `1.subscribe(2)`. -/
def c2St : Option St :=
  some (initSt 3) |> okAdd counterType [] 0 |> okAdd redType [] 1
    |> okAdd redType [] 2
    |> okSub btC 99 0 1
    |> okSet btC 99 2 "red_point" "activate" (.b true)
    |> okSub btC 99 1 2

/-- Modelled from the claim (C2): the sum of `f(J.owned(a))` over every item
`J` strictly downstream of `c`, an unset owned attribute contributing 0. -/
def claimCountSum (st : St) (c : ItemId) (ident : Ident) (a : AttrName)
    (f : Val → Int) : Int :=
  (((List.range st.items.length).filter
      (fun j => downWithin st st.items.length c j && j != c)).map
    (fun j => match ownedLookup st j ident a with
              | some w => f w
              | none => 0)).sum

/-- Scenario S5 prefix: `i0.subscribe(i1); i1.subscribe(i2)` (items 0, 1, 2;
one graph, chain 0 → 1 → 2 along notifier edges). -/
def s5St : Option St :=
  some (initSt 3) |> okSub [] 99 0 1 |> okSub [] 99 1 2

/-- The S5 prefix state as a plain state (for witnesses). -/
def w5St : St := s5St.getD (initSt 0)

/-- A diamond with head 0 (items 0-3) next to a two-item tree with head 4
(items 4, 5). -/
def c6St : Option St :=
  some (initSt 6) |> okSub [] 99 0 1 |> okSub [] 99 0 2
    |> okSub [] 99 1 3 |> okSub [] 99 2 3 |> okSub [] 99 4 5

/-- The diamond-plus-tree state as a plain state (for witnesses). -/
def w6St : St := c6St.getD (initSt 0)

/-- The result of `4.subscribe(0)` on `w6St` (a completing cross-graph
merge). -/
def sub6Res : Option ((Except Err Unit) × St) := subscribe [] 99 w6St 4 0 true

/-- Modelled from the claim (C6): "(subscriber was isolated or its graph was
already a tree) and (notifier was isolated or notifier is its graph's
head)". -/
def claimTreeAfterConnect (st : St) (sub notif : ItemId) : Bool :=
  (isSingle st sub || graphIsTreeOf st sub) && isHead st notif

/-! ## Well-formedness predicates and the attribute-only frame -/

/-- Well-formedness: every graph back-reference indexes an existing graph. -/
def graphRefsWFb (st : St) : Bool :=
  st.items.all (fun it =>
    match it.graph with
    | none => true
    | some g => g < st.graphs.length)

/-- Well-formedness: every graph's member list indexes existing items. -/
def graphMembersWFb (st : St) : Bool :=
  st.graphs.all (fun g => g.items.all (fun j => j < st.items.length))

/-- Frame relation: `st2` differs from `st` at most in the attribute sets of
items — the graph list, the graph back-references, the behavior maps and the
edge sets all agree. -/
def AttrsOnly (st st2 : St) : Prop :=
  st2.graphs = st.graphs ∧ st2.items.length = st.items.length ∧
  ∀ i, (getItem st2 i).graph = (getItem st i).graph ∧
       (getItem st2 i).behaviors = (getItem st i).behaviors ∧
       (getItem st2 i).notifiers = (getItem st i).notifiers ∧
       (getItem st2 i).subscribers = (getItem st i).subscribers

/-- Well-formedness: every subscriber edge points at an existing item. -/
def edgesWFb (st : St) : Bool :=
  (List.range st.items.length).all (fun i =>
    (subscribersOf st i).all (fun s => s < st.items.length))

/-- The cached count an item holds for `(identifier, storage name)`, read the
way `__calculate_total` reads it: the inherited-layer entry, 0 when absent
(also when the whole attribute set is absent). -/
def cacheCount (st : St) (i : ItemId) (ident : Ident) (c : AttrName) : Int :=
  ((cacheLookup st i ident c).getD (.i 0)).asInt

/-- The delta `CountAttribute.set_attribute` computes for a counted-attribute
write: `count(new) − count(old)`, old contributing 0 when not yet set. -/
def countDelta (f : Val → Int) (old : Option Val) (v : Val) : Int :=
  f v - match old with
        | none => 0
        | some w => f w

/-- One processing step of `__recursive_modify_count` on item `i`: read the
cached count (creating the attribute set if needed) and add the delta. -/
def caStep (ident : Ident) (cName : AttrName) (delta : Int) (st : St)
    (i : ItemId) : St :=
  let p := getAttrSetCreate st i ident
  let old := (p.1.getCacheD cName (.i 0)).asInt
  modifyAttrSet p.2 i ident (fun a => a.setCache cName (.i (old + delta)))

/-- `x` is reached by the worklist walk: some stack entry not yet visited
starts a subscriber-edge chain to `x` every walked-to node of which avoids
the visited set. -/
def reachUpA (st : St) (V stack : List ItemId) (x : ItemId) : Prop :=
  ∃ s ∈ stack, s ∉ V ∧ ∃ ws, chainA subscribersOf st V s ws x = true

/-- `x` lies upstream of `i` (along subscriber edges, `i` itself included). -/
def upReach (st : St) (i x : ItemId) : Prop :=
  ∃ ws, chainA subscribersOf st [] i ws x = true

/-- The `CountAttribute` configuration of the S4 scenario. -/
def caAttrs : List (AttrName × AttrName × (Val → Int)) :=
  [("activate", "count_activate", defaultCountFunction)]

/-- The S4 prefix (edges in place, nothing written yet): counter item 0
subscribes red items 1 and 2. -/
def c2PreSt : Option St :=
  some (initSt 3) |> okAdd counterType [] 0 |> okAdd redType [] 1
    |> okAdd redType [] 2
    |> okSub btC 99 0 1 |> okSub btC 99 0 2

/-- The S4 prefix as a plain state (for witnesses). -/
def w2St : St := c2PreSt.getD (initSt 0)

/-- The propagation of writing `activate = True` on red item 1 of the S4
prefix, entered at `CountAttribute.set_attribute`. -/
def run2 : Option ((Except Err Unit) × St) :=
  caSetAttribute caAttrs 99 w2St 1 "red_point" "activate" (.b true)

/-! ## Theorems for the claims settled on concrete runs -/

/-- C1: the boolean-OR aggregate invariant is violated in a reachable state.
After the S3 sequence (`i0.subscribe(mid)`; set `i1.activate = True`;
`mid.subscribe(i1)`, all operations completing without error), item `i1`
(id 2) is strictly downstream of `i0` (id 0) with owned `activate = True`,
yet `i0[T].get_attribute('activate')` gathers `False`: `do_pre_subscribe`
passes a bare identifier instead of the identifier set to `pre_subscribe`,
so the hook iterates the characters of `'red_point'` and never merges the
notifier's activation. -/
theorem claim1_or_invariant_violated :
    s3St.map (fun st =>
      ((getAttributeOp btNS st 0 "red_point" "activate").1,
       ownedLookup st 2 "red_point" "activate",
       downWithin st 3 0 2))
      = some (.ok (.b false), some (.b true), true) := by decide

/-- C2 (counterexample): the count aggregate invariant fails in a reachable
state.  Counter item 0 subscribes red item 1; red item 2 is activated while
isolated; after `1.subscribe(2)` item 2 is strictly downstream of the
counter and contributes 1 to the claim's sum, but the gathered
`count_activate` is still 0 — `CountAttribute` has no `pre_subscribe`
merging, so a dynamic join does not transfer existing counts. -/
theorem claim2_count_invariant_counterexample :
    c2St.map (fun st =>
      ((getAttributeOp btC st 0 "red_point" "count_activate").1,
       claimCountSum st 0 "red_point" "activate" defaultCountFunction))
      = some (.ok (.i 0), 1) := by decide

/-- C3: during a subscription transaction whose registry binds one
`NotifySubscribers` instance to two identifiers, `do_pre_subscribe` invokes
`pre_subscribe` twice (once per identifier), passing the bare identifier
each time — not once per behavior with the identifier set as the claim
states. -/
theorem claim3_pre_subscribe_protocol_violated :
    c3Registry = some [(0, ["red_point", "blue_point"])] ∧
    c3Registry.map preSubscribeCalls
      = some [(0, "red_point"), (0, "blue_point")] :=
  ⟨by decide, by decide⟩

/-- C4: in scenario S3 the gathered `activate` of `i0` is `False` after the
dynamic join, while the claim (and the repository's own test
`test3_add_subscription_dynamically`) expects `True`. -/
theorem claim4_dynamic_join_fails :
    s3St.map (fun st => (getAttributeOp btNS st 0 "red_point" "activate").1)
      = some (.ok (.b false)) := by decide

/-- C6 (counterexample): a subscribe that completes without error whose
resulting tree flag differs from the claim's formula.  Item 4 heads a
two-item tree and subscribes item 0, the head of a non-tree diamond: the
claim's formula "(subscriber isolated or its graph a tree) and (notifier
isolated or notifier is its graph's head)" evaluates to `true`, but the
surviving graph's `is_tree` is `false` (the code requires the notifier to be
head *of a tree*, via `is_head_of_tree`). -/
theorem claim6_tree_flag_counterexample :
    c6St.map (fun st =>
      (claimTreeAfterConnect st 4 0,
       match subscribe [] 99 st 4 0 true with
       | some (.ok _, st1) => (itemGraph st1 4).map (fun g => (getGraph st1 g).isTree)
       | _ => none))
      = some (true, some false) := by decide

/-- C7: `walk_through` on a non-tree graph yields an item twice.  In the
diamond 0 → {1, 2} → 3 (whose graph has `is_tree = false`) the downstream
walk from item 0 yields `[1, 3, 2, 3]` — item 3 appears once per path,
because each recursive generator call creates its own `visited` set and at
any single level the iterated set has no duplicates, so the visited check
never skips anything. -/
theorem claim7_walk_duplicates :
    s7St.map (fun st => ((getGraph st 0).isTree, walkThrough st false 0 99))
      = some (false, some [1, 3, 2, 3]) := by decide

/-- C10: `get_attribute` through the handle is pure: for every state, item,
identifier and attribute name — including the unknown-name and
missing-identifier failure paths — the state after the call is exactly the
state before it. -/
theorem claim10_get_attribute_pure (bt : BehaviorTable) (st : St) (i : ItemId)
    (ident : Ident) (name : AttrName) :
    (getAttributeOp bt st i ident name).2 = st := by
  unfold getAttributeOp
  repeat' split
  all_goals rfl

/-! ## Association-list and state-update lemmas -/

theorem lookupA_setA_self {α β : Type} [DecidableEq α] :
    ∀ {l : List (α × β)} {k : α} {v : β},
    lookupA l k = some v → setA l k v = l := by
  intro l
  induction l with
  | nil => intro k v h; simp [lookupA] at h
  | cons p rest ih =>
      intro k v h
      obtain ⟨k1, v1⟩ := p
      by_cases hk : k1 = k
      · simp [lookupA, hk] at h
        simp [setA, hk, h]
      · simp [lookupA, hk] at h
        simp [setA, hk, ih h]

theorem lookupA_setA_eq {α β : Type} [DecidableEq α] :
    ∀ (l : List (α × β)) (k : α) (v : β), lookupA (setA l k v) k = some v := by
  intro l
  induction l with
  | nil => intro k v; simp [setA, lookupA]
  | cons p rest ih =>
      intro k v
      obtain ⟨k1, v1⟩ := p
      by_cases hk : k1 = k
      · simp [setA, hk, lookupA]
      · simp [setA, hk, lookupA, ih]

theorem lookupA_setA_ne {α β : Type} [DecidableEq α] :
    ∀ (l : List (α × β)) (k k2 : α) (v : β), k ≠ k2 →
    lookupA (setA l k v) k2 = lookupA l k2 := by
  intro l
  induction l with
  | nil => intro k k2 v hne; simp [setA, lookupA, hne]
  | cons p rest ih =>
      intro k k2 v hne
      obtain ⟨k1, v1⟩ := p
      by_cases hk : k1 = k
      · subst hk
        simp [setA, lookupA, hne]
      · simp [setA, hk, lookupA]
        by_cases hk2 : k1 = k2 <;> simp [hk2, ih _ _ _ hne]

theorem list_set_getD {α : Type} :
    ∀ (l : List α) (i : Nat) (d : α), l.set i (l.getD i d) = l := by
  intro l
  induction l with
  | nil => intro i d; simp
  | cons a rest ih =>
      intro i d
      cases i with
      | zero => simp
      | succ n =>
          show a :: rest.set n ((a :: rest).getD (n + 1) d) = a :: rest
          rw [List.getD_cons_succ, ih]

theorem getD_set_ne {α : Type} :
    ∀ (l : List α) (i j : Nat) (a d : α), i ≠ j →
    (l.set i a).getD j d = l.getD j d := by
  intro l
  induction l with
  | nil => intro i j a d h; simp
  | cons x rest ih =>
      intro i j a d h
      cases i with
      | zero =>
          cases j with
          | zero => exact absurd rfl h
          | succ m =>
              show (a :: rest).getD (m + 1) d = (x :: rest).getD (m + 1) d
              rw [List.getD_cons_succ, List.getD_cons_succ]
      | succ n =>
          cases j with
          | zero => rfl
          | succ m =>
              show (x :: rest.set n a).getD (m + 1) d = (x :: rest).getD (m + 1) d
              rw [List.getD_cons_succ, List.getD_cons_succ]
              exact ih n m a d (fun hc => h (by rw [hc]))

theorem getD_set_self {α : Type} :
    ∀ (l : List α) (i : Nat) (a d : α), i < l.length →
    (l.set i a).getD i d = a := by
  intro l
  induction l with
  | nil => intro i a d h; simp at h
  | cons x rest ih =>
      intro i a d h
      cases i with
      | zero => rfl
      | succ n =>
          show (x :: rest.set n a).getD (n + 1) d = a
          rw [List.getD_cons_succ]
          exact ih n a d (by simpa using h)

theorem getItem_modifyItem_ne (st : St) (i j : ItemId) (f : Item → Item)
    (h : i ≠ j) : getItem (modifyItem st i f) j = getItem st j := by
  unfold getItem modifyItem
  exact getD_set_ne _ _ _ _ _ h

theorem modifyItem_graphs (st : St) (i : ItemId) (f : Item → Item) :
    (modifyItem st i f).graphs = st.graphs := rfl

theorem modifyItem_length (st : St) (i : ItemId) (f : Item → Item) :
    (modifyItem st i f).items.length = st.items.length := by
  unfold modifyItem; simp

theorem modifyItem_self {st : St} {i : ItemId} {f : Item → Item}
    (h : f (getItem st i) = getItem st i) : modifyItem st i f = st := by
  unfold modifyItem
  rw [h]
  show { st with items := st.items.set i (st.items.getD i emptyItem) } = st
  rw [list_set_getD]

theorem ownedLookup_destruct {st : St} {i : ItemId} {ident : Ident}
    {name : AttrName} {v : Val} (h : ownedLookup st i ident name = some v) :
    ∃ aset, getAttrSet st i ident = some aset ∧ lookupA aset.attrs name = some v := by
  unfold ownedLookup at h
  cases hA : getAttrSet st i ident with
  | none => rw [hA] at h; exact absurd h (by simp)
  | some aset => rw [hA] at h; exact ⟨aset, rfl, h⟩

theorem modifyAttrSet_self {st : St} {i : ItemId} {ident : Ident}
    {f : AttrSet → AttrSet} {a : AttrSet} (h : getAttrSet st i ident = some a)
    (hf : f a = a) : modifyAttrSet st i ident f = st := by
  unfold getAttrSet at h
  unfold modifyAttrSet
  apply modifyItem_self
  rw [h]
  dsimp only
  rw [hf, lookupA_setA_self h]

theorem attrSet_setAttr_self {a : AttrSet} {name : AttrName} {v : Val}
    (h : lookupA a.attrs name = some v) : a.setAttr name v = a := by
  unfold AttrSet.setAttr
  rw [lookupA_setA_self h]

/-! ## Idempotent writes (claim C9)

The central fact: *every* behavior's `set_attribute`, invoked with the value
the owned layer already holds, leaves the state untouched —
`NotifySubscribers` sees an unchanged gathered value and returns before
propagating, and `CountAttribute` computes a zero delta, which
`__recursive_modify_count` ignores. -/

theorem modifyCountRun_zero (ident : Ident) (cName : AttrName) :
    ∀ (fuel : Nat) (stack visited : List ItemId) (st : St),
    modifyCountRun ident cName 0 fuel stack visited st = none ∨
    modifyCountRun ident cName 0 fuel stack visited st = some st := by
  intro fuel
  induction fuel with
  | zero => intro stack visited st; left; rfl
  | succ n ih =>
      intro stack visited st
      cases stack with
      | nil => right; rfl
      | cons i rest =>
          have : modifyCountRun ident cName 0 (n + 1) (i :: rest) visited st
              = modifyCountRun ident cName 0 n rest visited st := by
            simp [modifyCountRun]
          rw [this]
          exact ih rest visited st

theorem modifyCountEach_zero (ident : Ident) (cName : AttrName) (fuel : Nat) :
    ∀ (subs : List ItemId) (st : St),
    modifyCountEach ident cName 0 fuel subs st = none ∨
    modifyCountEach ident cName 0 fuel subs st = some st := by
  intro subs
  induction subs with
  | nil => intro st; right; rfl
  | cons s rest ih =>
      intro st
      rcases modifyCountRun_zero ident cName fuel [s] [] st with h | h
      · left; simp [modifyCountEach, h]
      · simp [modifyCountEach, h]
        exact ih st

theorem nsSetAttribute_self {an : AttrName} {fuel : Nat} {st : St} {i : ItemId}
    {ident : Ident} {name : AttrName} {v : Val}
    (hOwned : ownedLookup st i ident name = some v) :
    ∃ r, nsSetAttribute an fuel st i ident name v = some (r, st) := by
  by_cases hn : name = an
  · subst hn
    cases v with
    | i m => exact ⟨.error .typeError, by simp [nsSetAttribute]⟩
    | b bv =>
        obtain ⟨aset, hA, hlook⟩ := ownedLookup_destruct hOwned
        have hset : aset.setAttr name (.b bv) = aset := attrSet_setAttr_self hlook
        have hst1 : modifyAttrSet st i ident (fun a => a.setAttr name (.b bv)) = st :=
          modifyAttrSet_self hA hset
        exact ⟨.ok (), by simp [nsSetAttribute, hA, hst1]⟩
  · exact ⟨.error .nameError, by simp [nsSetAttribute, hn]⟩

theorem caSetAttribute_self {attrs : List (AttrName × AttrName × (Val → Int))}
    {fuel : Nat} {st : St} {i : ItemId} {ident : Ident} {name : AttrName} {v : Val}
    (hOwned : ownedLookup st i ident name = some v) :
    caSetAttribute attrs fuel st i ident name v = none ∨
    ∃ r, caSetAttribute attrs fuel st i ident name v = some (r, st) := by
  obtain ⟨aset, hA, hlook⟩ := ownedLookup_destruct hOwned
  by_cases hs : name ∈ caStorages attrs
  · have hcr : getAttrSetCreate st i ident = (aset, st) := by
      unfold getAttrSetCreate; rw [hA]
    have hset : modifyAttrSet st i ident (fun a => a.setAttr name v) = st :=
      modifyAttrSet_self hA (attrSet_setAttr_self hlook)
    have hold : aset.getAttrD name (.i 0) = v := by
      simp [AttrSet.getAttrD, hlook]
    have hdelta : v.asInt - (aset.getAttrD name (.i 0)).asInt = 0 := by
      rw [hold]; exact sub_self _
    rcases modifyCountEach_zero ident name fuel (subscribersOf st i) st with h | h
    · left
      simp [caSetAttribute, hs, hcr, hset, hdelta, h]
    · right
      exact ⟨.ok (), by simp [caSetAttribute, hs, hcr, hset, hdelta, h]⟩
  · cases hc : caCounted attrs name with
    | none => right; exact ⟨.error .nameError, by simp [caSetAttribute, hs, hc]⟩
    | some cf =>
        have hdelta : cf.2 v - cf.2 v = 0 := sub_self _
        rcases modifyCountRun_zero ident cf.1 fuel [i] [] st with h | h
        · left
          simp [caSetAttribute, hs, hc, hA, hlook, hdelta, h]
        · right
          exact ⟨.ok (), by simp [caSetAttribute, hs, hc, hA, hlook, hdelta, h]⟩

theorem behaviorSetAttribute_self {bt : BehaviorTable} {bid : BehaviorId}
    {fuel : Nat} {st : St} {i : ItemId} {ident : Ident} {name : AttrName} {v : Val}
    (hOwned : ownedLookup st i ident name = some v) :
    behaviorSetAttribute bt bid fuel st i ident name v = none ∨
    ∃ r, behaviorSetAttribute bt bid fuel st i ident name v = some (r, st) := by
  unfold behaviorSetAttribute
  cases hb : lookupA bt bid with
  | none => right; exact ⟨.error .keyError, rfl⟩
  | some b =>
      cases b with
      | notifySubscribers an =>
          right
          rcases @nsSetAttribute_self an fuel _ _ _ _ _ hOwned with ⟨r, hr⟩
          exact ⟨r, hr⟩
      | countAttribute attrs =>
          exact caSetAttribute_self hOwned

theorem interestDispatch_self {bt : BehaviorTable} {fuel : Nat} {i : ItemId}
    {ident : Ident} {name : AttrName} {v : Val} :
    ∀ (blist : List BehaviorId) (st : St),
    ownedLookup st i ident name = some v →
    interestDispatch bt fuel i ident name v blist st = none ∨
    ∃ r, interestDispatch bt fuel i ident name v blist st = some (r, st) := by
  intro blist
  induction blist with
  | nil => intro st _; right; exact ⟨.ok (), rfl⟩
  | cons bid rest ih =>
      intro st hOwned
      rcases @behaviorSetAttribute_self bt bid fuel _ _ _ _ _ hOwned with h | ⟨r, hr⟩
      · left; simp [interestDispatch, h]
      · cases r with
        | ok u =>
            rcases ih st hOwned with h2 | ⟨r2, hr2⟩
            · left; simp [interestDispatch, hr, h2]
            · right; exact ⟨r2, by simp [interestDispatch, hr, hr2]⟩
        | error e =>
            right; exact ⟨.error e, by simp [interestDispatch, hr]⟩

theorem setAttributeOp_self {bt : BehaviorTable} {fuel : Nat} {st : St}
    {i : ItemId} {ident : Ident} {name : AttrName} {v : Val}
    (hOwned : ownedLookup st i ident name = some v) :
    setAttributeOp bt fuel st i ident name v = none ∨
    ∃ r, setAttributeOp bt fuel st i ident name v = some (r, st) := by
  obtain ⟨aset, hA, -⟩ := ownedLookup_destruct hOwned
  unfold setAttributeOp
  cases hbeh : lookupA (getItem st i).behaviors ident with
  | none => right; exact ⟨.error .keyError, rfl⟩
  | some bid =>
      rw [hA]
      have hdisp :
          (match itemGraph st i with
           | none => some ((.ok () : Except Err Unit), st)
           | some g =>
               interestDispatch bt fuel i ident name v (interestLookup st g ident name) st)
            = none ∨
          ∃ r, (match itemGraph st i with
           | none => some ((.ok () : Except Err Unit), st)
           | some g =>
               interestDispatch bt fuel i ident name v (interestLookup st g ident name) st)
            = some (r, st) := by
        cases hg : itemGraph st i with
        | none => right; exact ⟨.ok (), rfl⟩
        | some g => exact interestDispatch_self _ st hOwned
      rcases hdisp with h | ⟨r, hr⟩
      · rw [h]; left; rfl
      · rw [hr]
        cases r with
        | error e => right; exact ⟨.error e, rfl⟩
        | ok u =>
            rcases @behaviorSetAttribute_self bt bid fuel _ _ _ _ _ hOwned
              with h2 | ⟨r2, hr2⟩
            · left; simp [h2]
            · cases r2 with
              | ok u2 => right; exact ⟨.ok (), by simp [hr2]⟩
              | error e2 =>
                  cases e2 with
                  | nameError => right; exact ⟨.error .attributeError, by simp [hr2]⟩
                  | selfSubscription => right; exact ⟨.error .selfSubscription, by simp [hr2]⟩
                  | circularSubscription =>
                      right; exact ⟨.error .circularSubscription, by simp [hr2]⟩
                  | assertionFailure => right; exact ⟨.error .assertionFailure, by simp [hr2]⟩
                  | attributeError => right; exact ⟨.error .attributeError, by simp [hr2]⟩
                  | keyError => right; exact ⟨.error .keyError, by simp [hr2]⟩
                  | typeError => right; exact ⟨.error .typeError, by simp [hr2]⟩
                  | graphDestroyed => right; exact ⟨.error .graphDestroyed, by simp [hr2]⟩

/-- C9: idempotence of attribute writes.  In any state, writing to an
attribute the value its owned layer currently holds changes no
inherited-layer (cache) value on any item anywhere (whatever behavior owns
the handle and whatever behaviors are interest-dispatched: the unchanged
gathered value stops `NotifySubscribers`, and the zero delta stops
`CountAttribute`). -/
theorem claim9_set_attribute_idempotent (bt : BehaviorTable) (fuel : Nat)
    (st : St) (i : ItemId) (ident : Ident) (name : AttrName) (v : Val)
    (hOwned : ownedLookup st i ident name = some v) :
    ∀ p ∈ setAttributeOp bt fuel st i ident name v,
      ∀ j id2 n2, cacheLookup p.2 j id2 n2 = cacheLookup st j id2 n2 := by
  intro p hp j id2 n2
  rcases @setAttributeOp_self bt fuel _ _ _ _ _ hOwned with h | ⟨r, hr⟩
  · rw [h] at hp; simp at hp
  · rw [hr] at hp
    simp at hp
    rw [← hp]

/-! ## Completeness of the cycle-check walk (claim C5)

`walk_through`'s per-invocation visited set can only skip an item that was
already yielded (with its whole subtree) earlier at the same level, so
whenever the walk runs to completion its yield list contains every item
reachable from the start: if a chain of notifier edges leads from the
notifier to the subscriber, the cycle check sees the subscriber. -/

theorem notInVis_newFrame (st : St) (up : Bool) (i x : ItemId) :
    notInVis (newFrame st up i).2 x := by
  unfold newFrame
  cases h : itemGraph st i with
  | none => simp [notInVis]
  | some g =>
      by_cases ht : (getGraph st g).isTree <;> simp [ht, notInVis]

theorem walkRun_complete (st : St) (up : Bool) :
    ∀ (fuel : Nat) (frames : List (List ItemId × Option (List ItemId)))
      (l : List ItemId),
    walkRun st up fuel frames = some l →
    ∀ fr ∈ frames, ∀ c ∈ fr.1, notInVis fr.2 c →
    ∀ ws u, chainA (fun s j => edgeList s up j) st [] c ws u = true → u ∈ l := by
  intro fuel
  induction fuel with
  | zero =>
      intro frames l h
      exact absurd h (by simp [walkRun])
  | succ n ih =>
      intro frames l h fr hfr c hc hvis ws u hchain
      cases frames with
      | nil => simp at hfr
      | cons top rest =>
          obtain ⟨cs, vis⟩ := top
          cases cs with
          | nil =>
              have hstep : walkRun st up (n + 1) (([], vis) :: rest)
                  = walkRun st up n rest := by simp [walkRun]
              rw [hstep] at h
              rcases List.mem_cons.mp hfr with hfr1 | hfr1
              · rw [hfr1] at hc; simp at hc
              · exact ih rest l h fr hfr1 c hc hvis ws u hchain
          | cons i cs2 =>
              -- processing an item i: either skipped or yielded
              by_cases hskip : ∃ v, vis = some v ∧ i ∈ v
              · -- skip: i already in this level's visited set
                rcases hskip with ⟨v, rfl, hiv⟩
                have hstep : walkRun st up (n + 1) ((i :: cs2, some v) :: rest)
                    = walkRun st up n ((cs2, some v) :: rest) := by
                  simp [walkRun, hiv]
                rw [hstep] at h
                rcases List.mem_cons.mp hfr with hfr1 | hfr1
                · rw [hfr1] at hc hvis
                  have hci : c ≠ i := fun hceq => hvis (hceq ▸ hiv)
                  have hc2 : c ∈ cs2 := by
                    rcases List.mem_cons.mp hc with h1 | h1
                    · exact absurd h1 hci
                    · exact h1
                  exact ih _ l h (cs2, some v) (by simp) c hc2 hvis ws u hchain
                · exact ih _ l h fr (by simp [hfr1]) c hc hvis ws u hchain
              · -- yield i, push its frame
                obtain ⟨vis2, hstep, hvisprop⟩ :
                    ∃ vis2,
                      walkRun st up (n + 1) ((i :: cs2, vis) :: rest)
                        = (walkRun st up n
                            (newFrame st up i :: (cs2, vis2) :: rest)).map
                            (fun t => i :: t)
                      ∧ ∀ x, notInVis vis x → x ≠ i → notInVis vis2 x := by
                  cases vis with
                  | none => exact ⟨none, by simp [walkRun], fun x hx hxi => trivial⟩
                  | some v =>
                      have hiv : i ∉ v := fun hmem => hskip ⟨v, rfl, hmem⟩
                      refine ⟨some (i :: v), by simp [walkRun, hiv], ?_⟩
                      intro x hx hxi hmem
                      rcases List.mem_cons.mp hmem with h1 | h1
                      · exact hxi h1
                      · exact hx h1
                rw [hstep] at h
                rcases Option.map_eq_some'.mp h with ⟨l2, hrec, hl⟩
                have hl2 : l = i :: l2 := hl.symm
                subst hl2
                -- a chain starting at i lands in i's own pushed frame
                have hfromI : ∀ ws2 u2,
                    chainA (fun s j => edgeList s up j) st [] i ws2 u2 = true →
                    u2 ∈ i :: l2 := by
                  intro ws2 u2 hch
                  cases ws2 with
                  | nil =>
                      have : i = u2 := by simpa [chainA] using hch
                      simp [← this]
                  | cons w ws3 =>
                      have hch2 : w ∈ edgeList st up i ∧
                          chainA (fun s j => edgeList s up j) st [] w ws3 u2 = true := by
                        simpa [chainA] using hch
                      have hu2 : u2 ∈ l2 :=
                        ih _ l2 hrec (newFrame st up i) (by simp) w hch2.1
                          (notInVis_newFrame st up i w) ws3 u2 hch2.2
                      exact List.mem_cons_of_mem _ hu2
                rcases List.mem_cons.mp hfr with hfr1 | hfr1
                · -- c sits in the processed frame
                  rw [hfr1] at hc hvis
                  by_cases hci : c = i
                  · subst hci
                    exact hfromI ws u hchain
                  · have hc2 : c ∈ cs2 := by
                      rcases List.mem_cons.mp hc with h1 | h1
                      · exact absurd h1 hci
                      · exact h1
                    have hvis2 : notInVis vis2 c := hvisprop c hvis hci
                    have hu : u ∈ l2 :=
                      ih _ l2 hrec (cs2, vis2) (by simp) c hc2 hvis2 ws u hchain
                    exact List.mem_cons_of_mem _ hu
                · have hu : u ∈ l2 :=
                    ih _ l2 hrec fr (by simp [hfr1]) c hc hvis ws u hchain
                  exact List.mem_cons_of_mem _ hu

/-- C5: atomic cycle rejection.  If subscriber and notifier are in the same
graph and the subscriber is reachable downstream from the notifier along
notifier edges, then `subscriber.subscribe(notifier)` (with the default
cycle check) fails with the circular-subscription error and returns with the
state exactly as it was: no edge, attribute or graph metadata has been
mutated. -/
theorem claim5_cycle_rejection_atomic (bt : BehaviorTable) (fuel : Nat)
    (st : St) (sub notif : ItemId) (g : GraphId)
    (hgs : itemGraph st sub = some g) (hgn : itemGraph st notif = some g)
    (hne : sub ≠ notif)
    (hreach : ∃ w ws, w ∈ notifiersOf st notif ∧
        chainA notifiersOf st [] w ws sub = true) :
    ∀ p ∈ subscribe bt fuel st sub notif true,
      p = (.error .circularSubscription, st) := by
  intro p hp
  have hcond : getCondition (itemGraph st sub) (itemGraph st notif)
      = .bothGraph := by rw [hgs, hgn]; rfl
  have hpre : doPreSubscribe bt fuel st sub notif true
      = some (.error .circularSubscription, st) ∨
      doPreSubscribe bt fuel st sub notif true = none := by
    unfold doPreSubscribe
    rw [hcond]
    unfold preCircularCheck
    cases hw : walkThrough st false notif fuel with
    | none => right; simp [hw]
    | some l =>
        have hmem : sub ∈ l := by
          rcases hreach with ⟨w, ws, hwmem, hchain⟩
          exact walkRun_complete st false fuel [newFrame st false notif] l hw
            (newFrame st false notif) (by simp) w hwmem
            (notInVis_newFrame st false notif w) ws sub hchain
        left
        simp [hw, hmem]
  unfold subscribe at hp
  rw [if_neg hne] at hp
  rcases hpre with hd | hd
  · rw [hd] at hp
    simp at hp
    exact hp.symm
  · rw [hd] at hp
    simp at hp

/-- Witness for C5: in the S5 prefix (0 → 1 → 2 in one graph),
`i2.subscribe(i0)` is rejected with the circular-subscription error and the
state is returned untouched. -/
theorem claim5_witness :
    itemGraph w5St 2 = some 0 ∧
    ∀ p ∈ subscribe [] 99 w5St 2 0 true,
      p = (.error .circularSubscription, w5St) :=
  ⟨by decide,
   claim5_cycle_rejection_atomic [] 99 w5St 2 0 0 (by decide) (by decide)
     (by decide) ⟨1, [2], by decide, by decide⟩⟩

/-! ## Frame lemmas: propagation touches only attribute sets -/

theorem list_set_oob {α : Type} :
    ∀ (l : List α) (i : Nat) (a : α), l.length ≤ i → l.set i a = l := by
  intro l
  induction l with
  | nil => intro i a h; rfl
  | cons x rest ih =>
      intro i a h
      cases i with
      | zero => simp at h
      | succ n => simp [ih n a (by simpa using h)]

theorem modifyItem_oob {st : St} {i : ItemId} {f : Item → Item}
    (h : st.items.length ≤ i) : modifyItem st i f = st := by
  unfold modifyItem
  rw [list_set_oob _ _ _ h]

theorem getItem_modifyItem_self (st : St) (i : ItemId) (f : Item → Item)
    (h : i < st.items.length) : getItem (modifyItem st i f) i = f (getItem st i) := by
  unfold getItem modifyItem
  exact getD_set_self _ _ _ _ h

theorem itemGraph_modifyItem (st : St) (i : ItemId) (f : Item → Item)
    (hf : ∀ it, (f it).graph = it.graph) (j : ItemId) :
    itemGraph (modifyItem st i f) j = itemGraph st j := by
  by_cases hij : i = j
  · subst hij
    by_cases hlen : i < st.items.length
    · unfold itemGraph
      rw [getItem_modifyItem_self _ _ _ hlen, hf]
    · rw [modifyItem_oob (le_of_not_lt hlen)]
  · unfold itemGraph
    rw [getItem_modifyItem_ne st i j f hij]

theorem attrsOnly_refl (st : St) : AttrsOnly st st :=
  ⟨rfl, rfl, fun _ => ⟨rfl, rfl, rfl, rfl⟩⟩

theorem attrsOnly_trans {a b c : St} (h1 : AttrsOnly a b) (h2 : AttrsOnly b c) :
    AttrsOnly a c := by
  obtain ⟨g1, l1, f1⟩ := h1
  obtain ⟨g2, l2, f2⟩ := h2
  refine ⟨g2.trans g1, l2.trans l1, fun i => ?_⟩
  obtain ⟨a1, b1, c1, d1⟩ := f1 i
  obtain ⟨a2, b2, c2, d2⟩ := f2 i
  exact ⟨a2.trans a1, b2.trans b1, c2.trans c1, d2.trans d1⟩

theorem attrsOnly_modifyItem (st : St) (i : ItemId) (f : Item → Item)
    (hg : ∀ it, (f it).graph = it.graph)
    (hb : ∀ it, (f it).behaviors = it.behaviors)
    (hn : ∀ it, (f it).notifiers = it.notifiers)
    (hs : ∀ it, (f it).subscribers = it.subscribers) :
    AttrsOnly st (modifyItem st i f) := by
  refine ⟨rfl, modifyItem_length st i f, fun j => ?_⟩
  by_cases hij : i = j
  · subst hij
    by_cases hlen : i < st.items.length
    · rw [getItem_modifyItem_self _ _ _ hlen]
      exact ⟨hg _, hb _, hn _, hs _⟩
    · rw [modifyItem_oob (le_of_not_lt hlen)]
      exact ⟨rfl, rfl, rfl, rfl⟩
  · rw [getItem_modifyItem_ne st i j f hij]
    exact ⟨rfl, rfl, rfl, rfl⟩

theorem attrsOnly_modifyAttrSet (st : St) (i : ItemId) (ident : Ident)
    (f : AttrSet → AttrSet) : AttrsOnly st (modifyAttrSet st i ident f) := by
  unfold modifyAttrSet
  apply attrsOnly_modifyItem <;>
    (intro it; cases lookupA it.attributes ident <;> rfl)

theorem attrsOnly_getAttrSetCreate (st : St) (i : ItemId) (ident : Ident) :
    AttrsOnly st (getAttrSetCreate st i ident).2 := by
  unfold getAttrSetCreate
  cases getAttrSet st i ident with
  | some a => exact attrsOnly_refl st
  | none =>
      show AttrsOnly st (modifyItem st i (fun it =>
        { it with attributes := setA it.attributes ident ⟨[], []⟩ }))
      exact attrsOnly_modifyItem st i _ (fun _ => rfl) (fun _ => rfl)
        (fun _ => rfl) (fun _ => rfl)

theorem setTrueRun_attrsOnly (an : AttrName) (ident : Ident) :
    ∀ (fuel : Nat) (stack : List ItemId) (st st2 : St),
    setTrueRun an ident fuel stack st = some st2 → AttrsOnly st st2 := by
  intro fuel
  induction fuel with
  | zero => intro stack st st2 h; simp [setTrueRun] at h
  | succ n ih =>
      intro stack st st2 h
      cases stack with
      | nil =>
          simp [setTrueRun] at h
          rw [← h]; exact attrsOnly_refl st
      | cons i rest =>
          rw [setTrueRun] at h
          split at h
          · exact attrsOnly_trans (attrsOnly_getAttrSetCreate st i ident) (ih _ _ _ h)
          · exact attrsOnly_trans (attrsOnly_getAttrSetCreate st i ident)
              (attrsOnly_trans (attrsOnly_modifyAttrSet _ i ident _) (ih _ _ _ h))

theorem setFalseRun_attrsOnly (an : AttrName) (ident : Ident) :
    ∀ (fuel : Nat) (stack : List ItemId) (st st2 : St),
    setFalseRun an ident fuel stack st = some st2 → AttrsOnly st st2 := by
  intro fuel
  induction fuel with
  | zero => intro stack st st2 h; simp [setFalseRun] at h
  | succ n ih =>
      intro stack st st2 h
      cases stack with
      | nil =>
          simp [setFalseRun] at h
          rw [← h]; exact attrsOnly_refl st
      | cons i rest =>
          rw [setFalseRun] at h
          split at h
          · exact ih _ _ _ h
          · split at h
            · exact ih _ _ _ h
            · split at h
              · exact ih _ _ _ h
              · exact attrsOnly_trans (attrsOnly_modifyAttrSet st i ident _) (ih _ _ _ h)

theorem modifyCountRun_attrsOnly (ident : Ident) (cName : AttrName) (delta : Int) :
    ∀ (fuel : Nat) (stack visited : List ItemId) (st st2 : St),
    modifyCountRun ident cName delta fuel stack visited st = some st2 →
    AttrsOnly st st2 := by
  intro fuel
  induction fuel with
  | zero => intro stack visited st st2 h; simp [modifyCountRun] at h
  | succ n ih =>
      intro stack visited st st2 h
      cases stack with
      | nil =>
          simp [modifyCountRun] at h
          rw [← h]; exact attrsOnly_refl st
      | cons i rest =>
          rw [modifyCountRun] at h
          split at h
          · exact ih _ _ _ _ h
          · exact attrsOnly_trans (attrsOnly_getAttrSetCreate st i ident)
              (attrsOnly_trans (attrsOnly_modifyAttrSet _ i ident _) (ih _ _ _ _ h))

theorem modifyCountEach_attrsOnly (ident : Ident) (cName : AttrName)
    (delta : Int) (fuel : Nat) :
    ∀ (subs : List ItemId) (st st2 : St),
    modifyCountEach ident cName delta fuel subs st = some st2 →
    AttrsOnly st st2 := by
  intro subs
  induction subs with
  | nil =>
      intro st st2 h
      simp [modifyCountEach] at h
      rw [← h]; exact attrsOnly_refl st
  | cons s rest ih =>
      intro st st2 h
      rw [modifyCountEach] at h
      split at h
      · exact absurd h (by simp)
      · next st1 heq =>
          exact attrsOnly_trans (modifyCountRun_attrsOnly _ _ _ _ _ _ _ _ heq)
            (ih _ _ h)

theorem nsPreSubscribeChars_attrsOnly (an : AttrName) (fuel : Nat)
    (sub notif : ItemId) :
    ∀ (cs : List Char) (st st2 : St),
    nsPreSubscribeChars an fuel sub notif cs st = some st2 → AttrsOnly st st2 := by
  intro cs
  induction cs with
  | nil =>
      intro st st2 h
      simp [nsPreSubscribeChars] at h
      rw [← h]; exact attrsOnly_refl st
  | cons c rest ih =>
      intro st st2 h
      rw [nsPreSubscribeChars] at h
      split at h
      · exact ih _ _ h
      · split at h
        · split at h
          · exact absurd h (by simp)
          · next st1 heq =>
              exact attrsOnly_trans (setTrueRun_attrsOnly _ _ _ _ _ _ heq) (ih _ _ h)
        · exact ih _ _ h

theorem runPreSubscribeHooks_attrsOnly (bt : BehaviorTable) (fuel : Nat)
    (sub notif : ItemId) :
    ∀ (calls : List (BehaviorId × Ident)) (st st2 : St),
    runPreSubscribeHooks bt fuel sub notif calls st = some st2 →
    AttrsOnly st st2 := by
  intro calls
  induction calls with
  | nil =>
      intro st st2 h
      simp [runPreSubscribeHooks] at h
      rw [← h]; exact attrsOnly_refl st
  | cons c rest ih =>
      intro st st2 h
      rw [runPreSubscribeHooks] at h
      split at h
      · exact absurd h (by simp)
      · next st1 heq =>
          have hstep : AttrsOnly st st1 := by
            revert heq
            cases lookupA bt c.1 with
            | none => intro heq; simp at heq; rw [← heq]; exact attrsOnly_refl st
            | some b =>
                cases b with
                | notifySubscribers an2 =>
                    intro heq
                    exact nsPreSubscribeChars_attrsOnly an2 fuel sub notif _ _ _ heq
                | countAttribute attrs =>
                    intro heq; simp at heq; rw [← heq]; exact attrsOnly_refl st
          exact attrsOnly_trans hstep (ih _ _ h)

/-! ## Graph-update and congruence lemmas for the post phase -/

theorem modifyGraph_items (st : St) (g : GraphId) (f : Graph → Graph) :
    (modifyGraph st g f).items = st.items := rfl

theorem modifyGraph_length (st : St) (g : GraphId) (f : Graph → Graph) :
    (modifyGraph st g f).graphs.length = st.graphs.length := by
  unfold modifyGraph; simp

theorem getGraph_modifyGraph_self (st : St) (g : GraphId) (f : Graph → Graph)
    (h : g < st.graphs.length) :
    getGraph (modifyGraph st g f) g = f (getGraph st g) := by
  unfold getGraph modifyGraph
  exact getD_set_self _ _ _ _ h

theorem getGraph_modifyGraph_ne (st : St) (g g2 : GraphId) (f : Graph → Graph)
    (h : g ≠ g2) : getGraph (modifyGraph st g f) g2 = getGraph st g2 := by
  unfold getGraph modifyGraph
  exact getD_set_ne _ _ _ _ _ h

theorem itemGraph_modifyGraph (st : St) (g : GraphId) (f : Graph → Graph)
    (j : ItemId) : itemGraph (modifyGraph st g f) j = itemGraph st j := rfl

theorem itemGraph_congr {s s2 : St} (h : s2.items = s.items) (j : ItemId) :
    itemGraph s2 j = itemGraph s j := by
  unfold itemGraph getItem
  rw [h]

theorem getGraph_congr {s s2 : St} (h : s2.graphs = s.graphs) (g : GraphId) :
    getGraph s2 g = getGraph s g := by
  unfold getGraph
  rw [h]

theorem isTreeAfterConnect_congr {st st2 : St} (sub notif : ItemId)
    (h1 : ∀ j, itemGraph st2 j = itemGraph st j) (h2 : st2.graphs = st.graphs) :
    isTreeAfterConnect st2 sub notif = isTreeAfterConnect st sub notif := by
  unfold isTreeAfterConnect isSingle graphIsTreeOf isHeadOfTree
  simp only [h1, getGraph_congr h2]

theorem foldl_items_eq {α : Type} :
    ∀ (l : List α) (F : St → α → St) (s : St),
    (∀ s2 a, (F s2 a).items = s2.items) → (List.foldl F s l).items = s.items := by
  intro l
  induction l with
  | nil => intro F s h; rfl
  | cons x rest ih =>
      intro F s h
      rw [List.foldl_cons, ih F (F s x) h, h s x]

theorem foldl_graphs_eq {α : Type} :
    ∀ (l : List α) (F : St → α → St) (s : St),
    (∀ s2 a, (F s2 a).graphs = s2.graphs) → (List.foldl F s l).graphs = s.graphs := by
  intro l
  induction l with
  | nil => intro F s h; rfl
  | cons x rest ih =>
      intro F s h
      rw [List.foldl_cons, ih F (F s x) h, h s x]

theorem foldl_graphsLen_eq {α : Type} :
    ∀ (l : List α) (F : St → α → St) (s : St),
    (∀ s2 a, (F s2 a).graphs.length = s2.graphs.length) →
    (List.foldl F s l).graphs.length = s.graphs.length := by
  intro l
  induction l with
  | nil => intro F s h; rfl
  | cons x rest ih =>
      intro F s h
      rw [List.foldl_cons, ih F (F s x) h, h s x]

theorem collectInterest_items (bt : BehaviorTable) (s : St) (g : GraphId)
    (i : ItemId) : (collectInterest bt s g i).items = s.items := by
  unfold collectInterest
  apply foldl_items_eq
  intro s2 p
  apply foldl_items_eq
  intro s3 attr
  exact modifyGraph_items s3 g _

theorem collectInterest_graphsLen (bt : BehaviorTable) (s : St) (g : GraphId)
    (i : ItemId) :
    (collectInterest bt s g i).graphs.length = s.graphs.length := by
  unfold collectInterest
  apply foldl_graphsLen_eq
  intro s2 p
  apply foldl_graphsLen_eq
  intro s3 attr
  exact modifyGraph_length s3 g _

theorem retarget_keep (gid : GraphId) :
    ∀ (l : List ItemId) (s : St) (j : ItemId),
    itemGraph s j = some gid →
    itemGraph (l.foldl (fun s2 j2 => modifyItem s2 j2
      (fun it => { it with graph := some gid })) s) j = some gid := by
  intro l
  induction l with
  | nil => intro s j h; exact h
  | cons x rest ih =>
      intro s j h
      rw [List.foldl_cons]
      apply ih
      by_cases hxj : x = j
      · subst hxj
        by_cases hlen : x < s.items.length
        · unfold itemGraph
          rw [getItem_modifyItem_self _ _ _ hlen]
        · rw [modifyItem_oob (le_of_not_lt hlen)]
          exact h
      · unfold itemGraph
        rw [getItem_modifyItem_ne _ _ _ _ hxj]
        exact h

theorem retarget_mem (gid : GraphId) :
    ∀ (l : List ItemId) (s : St) (j : ItemId),
    j ∈ l → j < s.items.length →
    itemGraph (l.foldl (fun s2 j2 => modifyItem s2 j2
      (fun it => { it with graph := some gid })) s) j = some gid := by
  intro l
  induction l with
  | nil => intro s j h; simp at h
  | cons x rest ih =>
      intro s j hmem hlen
      rw [List.foldl_cons]
      by_cases hxj : x = j
      · subst hxj
        apply retarget_keep
        unfold itemGraph
        rw [getItem_modifyItem_self _ _ _ hlen]
      · rcases List.mem_cons.mp hmem with h1 | h1
        · exact absurd h1.symm hxj
        · exact ih _ j h1 (by rw [modifyItem_length]; exact hlen)

theorem graphRefsWF_spec {st : St} (h : graphRefsWFb st = true) {j : ItemId}
    {g : GraphId} (hj : itemGraph st j = some g) : g < st.graphs.length := by
  unfold graphRefsWFb at h
  rw [List.all_eq_true] at h
  unfold itemGraph at hj
  by_cases hlen : j < st.items.length
  · have hmem : getItem st j ∈ st.items := by
      unfold getItem
      rw [List.getD_eq_getElem st.items emptyItem hlen]
      exact List.getElem_mem hlen
    have h2 := h _ hmem
    rw [hj] at h2
    simpa using h2
  · unfold getItem at hj
    rw [List.getD_eq_default st.items emptyItem (le_of_not_lt hlen)] at hj
    exact absurd hj (by simp [emptyItem])

theorem doPreSubscribe_ok {bt : BehaviorTable} {fuel : Nat} {st : St}
    {sub notif : ItemId} {cc : Bool}
    {info : GraphCond × List (BehaviorId × List Ident)} {st1 : St}
    (h : doPreSubscribe bt fuel st sub notif cc = some (.ok info, st1)) :
    info.1 = getCondition (itemGraph st sub) (itemGraph st notif) ∧
    AttrsOnly st st1 := by
  unfold doPreSubscribe at h
  cases hcv : preCircularCheck fuel st sub notif
      (getCondition (itemGraph st sub) (itemGraph st notif)) cc with
  | none => rw [hcv] at h; exact absurd h (by simp)
  | some b =>
      rw [hcv] at h
      cases b with
      | true => exact absurd h (by simp)
      | false =>
          cases hhk : runPreSubscribeHooks bt fuel sub notif
              (preSubscribeCalls (preRegistry st sub notif
                (getCondition (itemGraph st sub) (itemGraph st notif)))) st with
          | none => rw [hhk] at h; exact absurd h (by simp)
          | some st1h =>
              rw [hhk] at h
              obtain ⟨i1, i2⟩ := info
              simp only [Option.some_inj] at h
              have h1 := congrArg Prod.fst h
              have h2 := congrArg Prod.snd h
              simp at h1 h2
              refine ⟨?_, ?_⟩
              · exact h1.1.symm
              · exact h2 ▸ runPreSubscribeHooks_attrsOnly bt fuel sub notif _ st st1h hhk

theorem itemGraph_setGraphRef_ne (s : St) (i j : ItemId) (g : GraphId)
    (h : i ≠ j) :
    itemGraph (modifyItem s i (fun it => { it with graph := some g })) j
      = itemGraph s j := by
  unfold itemGraph
  rw [getItem_modifyItem_ne s i j _ h]

theorem itemGraph_setGraphRef_self (s : St) (i : ItemId) (g : GraphId)
    (h : i < s.items.length) :
    itemGraph (modifyItem s i (fun it => { it with graph := some g })) i
      = some g := by
  unfold itemGraph
  rw [getItem_modifyItem_self s i _ h]

theorem itemGraph_collect (bt : BehaviorTable) (s : St) (g : GraphId)
    (i j : ItemId) : itemGraph (collectInterest bt s g i) j = itemGraph s j :=
  itemGraph_congr (collectInterest_items bt s g i) j

/-- The surviving graph chosen by `postBuild` is (or becomes) the graph the
subscriber points at, and its index is in range. -/
theorem postBuild_spec {bt : BehaviorTable} {st2 : St} {sub notif : ItemId}
    {cond : GraphCond} {q : St × GraphId}
    (hcond : cond = getCondition (itemGraph st2 sub) (itemGraph st2 notif))
    (hsub : sub < st2.items.length)
    (hne : sub ≠ notif)
    (hwf : ∀ j g2, itemGraph st2 j = some g2 → g2 < st2.graphs.length)
    (h : postBuild bt st2 sub notif cond = .ok q) :
    itemGraph q.1 sub = some q.2 ∧ q.2 < q.1.graphs.length := by
  obtain ⟨q1, q2⟩ := q
  cases hs2 : itemGraph st2 sub with
  | none =>
      cases hn2 : itemGraph st2 notif with
      | none =>
          have hc : cond = GraphCond.bothSingle := by rw [hcond, hs2, hn2]; rfl
          subst hc
          unfold postBuild at h
          simp at h
          obtain ⟨hq1, hq2⟩ := h
          subst hq1
          subst hq2
          constructor
          · rw [itemGraph_setGraphRef_ne _ _ _ _ (fun hc2 => hne hc2.symm),
                itemGraph_collect,
                itemGraph_setGraphRef_self _ _ _
                  (by rw [collectInterest_items]; exact hsub)]
          · show st2.graphs.length < _
            simp only [modifyItem_graphs, collectInterest_graphsLen,
              modifyItem_length]
            simp
      | some gn2 =>
          have hc : cond = GraphCond.subscriberSingle := by rw [hcond, hs2, hn2]; rfl
          subst hc
          unfold postBuild at h
          rw [hn2] at h
          simp at h
          obtain ⟨hq1, hq2⟩ := h
          subst hq1
          subst hq2
          constructor
          · rw [itemGraph_setGraphRef_self _ _ _
                  (by rw [collectInterest_items]; exact hsub)]
          · simp only [modifyItem_graphs, collectInterest_graphsLen,
              modifyGraph_length]
            exact hwf notif gn2 hn2
  | some gs2 =>
      cases hn2 : itemGraph st2 notif with
      | none =>
          have hc : cond = GraphCond.notifierSingle := by rw [hcond, hs2, hn2]; rfl
          subst hc
          unfold postBuild at h
          rw [hs2] at h
          simp at h
          obtain ⟨hq1, hq2⟩ := h
          subst hq1
          subst hq2
          constructor
          · rw [itemGraph_setGraphRef_ne _ _ _ _ (fun hc2 => hne hc2.symm),
                itemGraph_collect]
            show itemGraph (modifyGraph st2 gs2 _) sub = some gs2
            rw [itemGraph_modifyGraph]
            exact hs2
          · simp only [modifyItem_graphs, collectInterest_graphsLen,
              modifyGraph_length]
            exact hwf sub gs2 hs2
      | some gn2 =>
          have hc : cond = GraphCond.bothGraph := by rw [hcond, hs2, hn2]; rfl
          subst hc
          unfold postBuild at h
          by_cases hsame : isInSameGraph st2 sub notif
          · simp [hs2, hn2, hsame] at h
            obtain ⟨hq1, hq2⟩ := h
            subst hq1
            subst hq2
            exact ⟨hs2, hwf sub gs2 hs2⟩
          · simp [hs2, hn2, hsame] at h
            obtain ⟨hq1, hq2⟩ := h
            subst hq1
            subst hq2
            constructor
            · rw [itemGraph_modifyGraph]
              apply retarget_keep
              rw [itemGraph_modifyGraph]
              exact hs2
            · simp only [modifyGraph_length]
              rw [foldl_graphsLen_eq _ _ _
                  (fun s2 a => by rw [modifyItem_graphs])]
              simp only [modifyGraph_length]
              exact hwf sub gs2 hs2

/-- C6 (amended): for every `subscriber.subscribe(notifier)` call that
completes without error, the surviving graph's `is_tree` flag equals
(subscriber was isolated OR subscriber's graph was already a tree) AND
(notifier was isolated OR (notifier's graph was a tree AND notifier was its
head)) — i.e. the notifier-side conjunct is `is_head_of_tree`, not merely
"is its graph's head". -/
theorem claim6_tree_flag_amended (bt : BehaviorTable) (fuel : Nat) (st : St)
    (sub notif : ItemId) (p : (Except Err Unit) × St)
    (hsub : sub < st.items.length)
    (hwf : graphRefsWFb st = true)
    (hrun : subscribe bt fuel st sub notif true = some p)
    (hok : p.1 = .ok ()) :
    ∃ g, itemGraph p.2 sub = some g ∧
      (getGraph p.2 g).isTree =
        ((isSingle st sub || graphIsTreeOf st sub) && isHeadOfTree st notif) := by
  unfold subscribe at hrun
  by_cases heq : sub = notif
  · rw [if_pos heq] at hrun
    simp at hrun
    rw [← hrun] at hok
    simp at hok
  · rw [if_neg heq] at hrun
    cases hpre : doPreSubscribe bt fuel st sub notif true with
    | none => rw [hpre] at hrun; exact absurd hrun (by simp)
    | some pr =>
        rw [hpre] at hrun
        obtain ⟨r1, st1⟩ := pr
        cases r1 with
        | error e =>
            simp at hrun
            rw [← hrun] at hok
            simp at hok
        | ok info =>
            obtain ⟨hcond, hAO⟩ := doPreSubscribe_ok hpre
            have hIG2 : ∀ j, itemGraph (addEdge st1 sub notif) j = itemGraph st j := by
              intro j
              simp only [addEdge]
              rw [itemGraph_modifyItem _ sub
                    (fun it => { it with notifiers := addToSet it.notifiers notif })
                    (fun it => rfl) j,
                  itemGraph_modifyItem _ notif
                    (fun it => { it with subscribers := addToSet it.subscribers sub })
                    (fun it => rfl) j]
              exact (hAO.2.2 j).1
            have hG2 : (addEdge st1 sub notif).graphs = st.graphs := by
              simp only [addEdge]
              rw [modifyItem_graphs, modifyItem_graphs]
              exact hAO.1
            have hLen2 : (addEdge st1 sub notif).items.length = st.items.length := by
              simp only [addEdge]
              rw [modifyItem_length, modifyItem_length]
              exact hAO.2.1
            dsimp only at hrun
            unfold doPostSubscribe at hrun
            cases hh : postHeadInfo fuel (addEdge st1 sub notif) sub notif
                (isTreeAfterConnect (addEdge st1 sub notif) sub notif) with
            | none => rw [hh] at hrun; exact absurd hrun (by simp)
            | some er =>
                rw [hh] at hrun
                cases er with
                | error e =>
                    simp at hrun
                    rw [← hrun] at hok
                    simp at hok
                | ok hc =>
                    cases hb : postBuild bt (addEdge st1 sub notif) sub notif info.1 with
                    | error e =>
                        rw [hb] at hrun
                        simp at hrun
                        rw [← hrun] at hok
                        simp at hok
                    | ok q =>
                        rw [hb] at hrun
                        simp at hrun
                        have hspec := postBuild_spec
                          (by rw [hcond, hIG2 sub, hIG2 notif])
                          (by rw [hLen2]; exact hsub) heq
                          (fun j g2 hj => by
                            rw [hG2]
                            exact graphRefsWF_spec hwf ((hIG2 j) ▸ hj))
                          hb
                        obtain ⟨hq1, hq2⟩ := hspec
                        refine ⟨q.2, ?_, ?_⟩
                        · rw [← hrun]
                          show itemGraph (modifyGraph q.1 q.2 _) sub = some q.2
                          rw [itemGraph_modifyGraph]
                          exact hq1
                        · rw [← hrun]
                          show (getGraph (modifyGraph q.1 q.2 _) q.2).isTree = _
                          rw [getGraph_modifyGraph_self _ _ _ hq2]
                          show isTreeAfterConnect (addEdge st1 sub notif) sub notif = _
                          rw [isTreeAfterConnect_congr sub notif hIG2 hG2]
                          rfl

/-- Witness for C6 (amended): item 4 (head of the two-item tree) subscribing
item 0 (head of the non-tree diamond) completes, and the surviving graph's
tree flag equals the amended formula (`false`, because the notifier is not
the head of a *tree*). -/
theorem claim6_amended_witness :
    4 < w6St.items.length ∧ graphRefsWFb w6St = true ∧
    (∃ g, itemGraph (sub6Res.getD (.ok (), w6St)).2 4 = some g ∧
      (getGraph (sub6Res.getD (.ok (), w6St)).2 g).isTree =
        ((isSingle w6St 4 || graphIsTreeOf w6St 4) && isHeadOfTree w6St 0)) :=
  ⟨by decide, by decide,
   by
    have h := claim6_tree_flag_amended [] 99 w6St 4 0
      (sub6Res.getD (.ok (), w6St)) (by decide) (by decide) (by decide) (by decide)
    exact h⟩

theorem graphMembersWF_spec {st : St} (h : graphMembersWFb st = true)
    {g : GraphId} (hg : g < st.graphs.length) :
    ∀ j ∈ (getGraph st g).items, j < st.items.length := by
  unfold graphMembersWFb at h
  rw [List.all_eq_true] at h
  intro j hj
  have hmem : getGraph st g ∈ st.graphs := by
    unfold getGraph
    rw [List.getD_eq_getElem st.graphs emptyGraph hg]
    exact List.getElem_mem hg
  have h2 := h _ hmem
  rw [List.all_eq_true] at h2
  simpa using h2 j hj

/-- In the cross-graph merge branch of `postBuild`, the subscriber's graph
survives, every former member of the notifier's graph is retargeted to it,
and the notifier's graph is flagged destroyed. -/
theorem postBuild_merge_spec {bt : BehaviorTable} {st2 : St}
    {sub notif : ItemId} {gs gn : GraphId} {q : St × GraphId}
    (hs2 : itemGraph st2 sub = some gs)
    (hn2 : itemGraph st2 notif = some gn)
    (hdiff : gs ≠ gn)
    (hglen : gn < st2.graphs.length)
    (hmem : ∀ j ∈ (getGraph st2 gn).items, j < st2.items.length)
    (hb : postBuild bt st2 sub notif GraphCond.bothGraph = .ok q) :
    q.2 = gs ∧
    (∀ j ∈ (getGraph st2 gn).items, itemGraph q.1 j = some gs) ∧
    (getGraph q.1 gn).destroyed = true := by
  obtain ⟨q1, q2⟩ := q
  have hsame : isInSameGraph st2 sub notif = false := by
    unfold isInSameGraph
    rw [hs2, hn2]
    simp
    exact fun hc => hdiff hc.symm
  unfold postBuild at hb
  simp [hs2, hn2, hsame] at hb
  obtain ⟨hq1, hq2⟩ := hb
  subst hq1
  subst hq2
  refine ⟨rfl, ?_, ?_⟩
  · intro j hj
    rw [itemGraph_modifyGraph]
    apply retarget_mem gs _ _ j hj
    rw [modifyGraph_items]
    exact hmem j hj
  · have hg2 : gn < ((getGraph st2 gn).items.foldl
        (fun s j => modifyItem s j
          (fun it => { it with graph := some gs }))
        (modifyGraph st2 gs (fun gr =>
          { gr with
              items := setUnion gr.items (getGraph st2 gn).items,
              interest := mergeDictSetValues gr.interest
                (getGraph st2 gn).interest }))).graphs.length := by
      rw [foldl_graphs_eq _ _ _ (fun s2 a => modifyItem_graphs _ _ _)]
      rw [modifyGraph_length]
      exact hglen
    rw [getGraph_modifyGraph_self _ _ _ hg2]

/-- C8: a `subscriber.subscribe(notifier)` call that completes without error
on items of two distinct graphs retargets every member of the notifier's
(losing) graph to the subscriber's (surviving) graph — the retargeting fold
reads the losing graph's member list before that list is released — and any
subsequent read on the destroyed graph object fails with the graph-destroyed
error. -/
theorem claim8_merge (bt : BehaviorTable) (fuel : Nat) (st : St)
    (sub notif : ItemId) (gs gn : GraphId) (p : (Except Err Unit) × St)
    (hgs : itemGraph st sub = some gs)
    (hgn : itemGraph st notif = some gn)
    (hdiff : gs ≠ gn)
    (hwfR : graphRefsWFb st = true)
    (hwfM : graphMembersWFb st = true)
    (hrun : subscribe bt fuel st sub notif true = some p)
    (hok : p.1 = .ok ()) :
    (∀ j ∈ (getGraph st gn).items, itemGraph p.2 j = some gs) ∧
    (getGraph p.2 gn).destroyed = true ∧
    ∀ (α : Type) (f : Graph → α), graphRead p.2 gn f = .error .graphDestroyed := by
  unfold subscribe at hrun
  by_cases heq : sub = notif
  · rw [if_pos heq] at hrun
    simp at hrun
    rw [← hrun] at hok
    simp at hok
  · rw [if_neg heq] at hrun
    cases hpre : doPreSubscribe bt fuel st sub notif true with
    | none => rw [hpre] at hrun; exact absurd hrun (by simp)
    | some pr =>
        rw [hpre] at hrun
        obtain ⟨r1, st1⟩ := pr
        cases r1 with
        | error e =>
            simp at hrun
            rw [← hrun] at hok
            simp at hok
        | ok info =>
            obtain ⟨hcond, hAO⟩ := doPreSubscribe_ok hpre
            have hIG2 : ∀ j, itemGraph (addEdge st1 sub notif) j = itemGraph st j := by
              intro j
              simp only [addEdge]
              rw [itemGraph_modifyItem _ sub
                    (fun it => { it with notifiers := addToSet it.notifiers notif })
                    (fun it => rfl) j,
                  itemGraph_modifyItem _ notif
                    (fun it => { it with subscribers := addToSet it.subscribers sub })
                    (fun it => rfl) j]
              exact (hAO.2.2 j).1
            have hG2 : (addEdge st1 sub notif).graphs = st.graphs := by
              simp only [addEdge]
              rw [modifyItem_graphs, modifyItem_graphs]
              exact hAO.1
            have hLen2 : (addEdge st1 sub notif).items.length = st.items.length := by
              simp only [addEdge]
              rw [modifyItem_length, modifyItem_length]
              exact hAO.2.1
            dsimp only at hrun
            unfold doPostSubscribe at hrun
            cases hh : postHeadInfo fuel (addEdge st1 sub notif) sub notif
                (isTreeAfterConnect (addEdge st1 sub notif) sub notif) with
            | none => rw [hh] at hrun; exact absurd hrun (by simp)
            | some er =>
                rw [hh] at hrun
                cases er with
                | error e =>
                    simp at hrun
                    rw [← hrun] at hok
                    simp at hok
                | ok hc =>
                    have hcb : info.1 = GraphCond.bothGraph := by
                      rw [hcond, hgs, hgn]; rfl
                    cases hb : postBuild bt (addEdge st1 sub notif) sub notif info.1 with
                    | error e =>
                        rw [hb] at hrun
                        simp at hrun
                        rw [← hrun] at hok
                        simp at hok
                    | ok q =>
                        rw [hb] at hrun
                        simp at hrun
                        rw [hcb] at hb
                        have hspec := postBuild_merge_spec
                          (by rw [hIG2 sub]; exact hgs)
                          (by rw [hIG2 notif]; exact hgn)
                          hdiff
                          (by rw [hG2]; exact graphRefsWF_spec hwfR hgn)
                          (by
                            rw [getGraph_congr hG2, hLen2]
                            exact graphMembersWF_spec hwfM
                              (graphRefsWF_spec hwfR hgn))
                          hb
                        obtain ⟨hq2, hret, hdest⟩ := hspec
                        have hdest2 : (getGraph p.2 gn).destroyed = true := by
                          rw [← hrun]
                          show (getGraph (modifyGraph q.1 q.2 _) gn).destroyed = true
                          rw [getGraph_modifyGraph_ne _ _ _ _ (hq2 ▸ hdiff)]
                          exact hdest
                        refine ⟨?_, hdest2, ?_⟩
                        · intro j hj
                          rw [← hrun]
                          show itemGraph (modifyGraph q.1 q.2 _) j = some gs
                          rw [itemGraph_modifyGraph]
                          exact hret j (by rw [getGraph_congr hG2]; exact hj)
                        · intro α f
                          unfold graphRead
                          rw [hdest2]
                          rfl

/-- Witness for C8: on the diamond-plus-tree state, `4.subscribe(0)` merges
graph 0 (the diamond, the notifier side, destroyed) into graph 1 (the
subscriber side, surviving); all four diamond members point at graph 1 and
reads on graph 0 fail. -/
theorem claim8_witness :
    itemGraph w6St 4 = some 1 ∧ itemGraph w6St 0 = some 0 ∧
    graphRefsWFb w6St = true ∧ graphMembersWFb w6St = true ∧
    ((∀ j ∈ (getGraph w6St 0).items,
        itemGraph (sub6Res.getD (.ok (), w6St)).2 j = some 1) ∧
     (getGraph (sub6Res.getD (.ok (), w6St)).2 0).destroyed = true ∧
     ∀ (α : Type) (f : Graph → α),
       graphRead (sub6Res.getD (.ok (), w6St)).2 0 f = .error .graphDestroyed) :=
  ⟨by decide, by decide, by decide, by decide,
   claim8_merge [] 99 w6St 4 0 1 0 (sub6Res.getD (.ok (), w6St))
     (by decide) (by decide) (by decide) (by decide) (by decide)
     (by decide) (by decide)⟩

/-- Witness for C9: in the S4 state, red item 1 owns `activate = True`;
rewriting `True` leaves every cache everywhere unchanged. -/
theorem claim9_witness :
    ownedLookup w9St 1 "red_point" "activate" = some (.b true) ∧
    ∀ p ∈ setAttributeOp btC 9 w9St 1 "red_point" "activate" (.b true),
      ∀ j id2 n2, cacheLookup p.2 j id2 n2 = cacheLookup w9St j id2 n2 :=
  ⟨by decide,
   claim9_set_attribute_idempotent btC 9 w9St 1 "red_point" "activate" (.b true)
     (by decide)⟩

/-! ## Chains and the worklist reach set (claim C2) -/

theorem chainA_congr (e : St → ItemId → List ItemId) {st st2 : St}
    (h : ∀ u, e st2 u = e st u) (V : List ItemId) :
    ∀ (ws : List ItemId) (u x : ItemId),
    chainA e st2 V u ws x = chainA e st V u ws x := by
  intro ws
  induction ws with
  | nil => intro u x; rfl
  | cons w rest ih =>
      intro u x
      unfold chainA
      rw [h u, ih w x]

theorem chainA_weaken (e : St → ItemId → List ItemId) (st : St)
    (a : ItemId) (V : List ItemId) :
    ∀ (ws : List ItemId) (u x : ItemId),
    chainA e st (a :: V) u ws x = true → chainA e st V u ws x = true := by
  intro ws
  induction ws with
  | nil => intro u x h; exact h
  | cons w rest ih =>
      intro u x h
      unfold chainA at h ⊢
      simp only [Bool.and_eq_true, decide_eq_true_eq] at h ⊢
      refine ⟨⟨h.1.1, ?_⟩, ih w x h.2⟩
      intro hwV
      exact h.1.2 (List.mem_cons_of_mem a hwV)

theorem chainA_strengthen (e : St → ItemId → List ItemId) (st : St)
    (a : ItemId) (V : List ItemId) :
    ∀ (ws : List ItemId) (u x : ItemId),
    chainA e st V u ws x = true → a ∉ ws → chainA e st (a :: V) u ws x = true := by
  intro ws
  induction ws with
  | nil => intro u x h _; exact h
  | cons w rest ih =>
      intro u x h haw
      unfold chainA at h ⊢
      simp only [Bool.and_eq_true, decide_eq_true_eq] at h ⊢
      refine ⟨⟨h.1.1, ?_⟩, ih w x h.2 (fun hc => haw (List.mem_cons_of_mem w hc))⟩
      intro hwV
      rcases List.mem_cons.mp hwV with h1 | h1
      · exact haw (h1 ▸ List.mem_cons_self w rest)
      · exact h.1.2 h1

theorem chainA_end_mem (e : St → ItemId → List ItemId) (st : St)
    (V : List ItemId) :
    ∀ (ws : List ItemId) (u x : ItemId),
    chainA e st V u ws x = true → x = u ∨ x ∈ ws := by
  intro ws
  induction ws with
  | nil =>
      intro u x h
      left
      have hux : u = x := by unfold chainA at h; simpa using h
      exact hux.symm
  | cons w rest ih =>
      intro u x h
      unfold chainA at h
      simp only [Bool.and_eq_true] at h
      right
      rcases ih w x h.2 with h1 | h1
      · exact h1 ▸ List.mem_cons_self w rest
      · exact List.mem_cons_of_mem w h1

theorem chainA_nodes_avoid (e : St → ItemId → List ItemId) (st : St)
    (V : List ItemId) :
    ∀ (ws : List ItemId) (u x : ItemId),
    chainA e st V u ws x = true → ∀ w ∈ ws, w ∉ V := by
  intro ws
  induction ws with
  | nil => intro u x _ w hw; simp at hw
  | cons w0 rest ih =>
      intro u x h w hw
      unfold chainA at h
      simp only [Bool.and_eq_true, decide_eq_true_eq] at h
      rcases List.mem_cons.mp hw with h1 | h1
      · exact h1 ▸ h.1.2
      · exact ih w0 x h.2 w h1

theorem chainA_split_last (e : St → ItemId → List ItemId) (st : St)
    (V : List ItemId) (i : ItemId) :
    ∀ (ws : List ItemId) (u x : ItemId),
    chainA e st V u ws x = true → x ≠ i → i ∈ u :: ws →
    ∃ w ws2, w ∈ e st i ∧ w ∉ (i :: V) ∧
      chainA e st (i :: V) w ws2 x = true := by
  intro ws
  induction ws with
  | nil =>
      intro u x h hx hmem
      exfalso
      apply hx
      have hux : u = x := by unfold chainA at h; simpa using h
      have : i = u := by simpa using hmem
      rw [this, hux]
  | cons w rest ih =>
      intro u x h hx hmem
      unfold chainA at h
      simp only [Bool.and_eq_true, decide_eq_true_eq] at h
      by_cases hir : i ∈ w :: rest
      · exact ih w x h.2 hx hir
      · have hiu : i = u := by
          rcases List.mem_cons.mp hmem with h1 | h1
          · exact h1
          · exact absurd h1 hir
        refine ⟨w, rest, hiu ▸ h.1.1, ?_, ?_⟩
        · intro hc
          rcases List.mem_cons.mp hc with h1 | h1
          · exact hir (h1 ▸ List.mem_cons_self w rest)
          · exact h.1.2 h1
        · exact chainA_strengthen e st i V rest w x h.2
            (fun hc => hir (List.mem_cons_of_mem w hc))

theorem reachUpA_congr {st st2 : St}
    (h : ∀ u, subscribersOf st2 u = subscribersOf st u)
    (V stack : List ItemId) (x : ItemId) :
    reachUpA st2 V stack x ↔ reachUpA st V stack x := by
  unfold reachUpA
  constructor
  · rintro ⟨s, hmem, hsV, ws, hch⟩
    exact ⟨s, hmem, hsV, ws, (chainA_congr subscribersOf h V ws s x) ▸ hch⟩
  · rintro ⟨s, hmem, hsV, ws, hch⟩
    exact ⟨s, hmem, hsV, ws, (chainA_congr subscribersOf h V ws s x).symm ▸ hch⟩

theorem reachUpA_head {st : St} {V : List ItemId} {i : ItemId}
    (hiV : i ∉ V) (stack : List ItemId) : reachUpA st V (i :: stack) i :=
  ⟨i, List.mem_cons_self i stack, hiV, [], by unfold chainA; simp⟩

theorem reachUpA_not_head (st : St) (V stack : List ItemId) (i : ItemId) :
    ¬ reachUpA st (i :: V) stack i := by
  rintro ⟨s, hmem, hsV, ws, hch⟩
  rcases chainA_end_mem subscribersOf st (i :: V) ws s i hch with h1 | h1
  · exact hsV (h1 ▸ List.mem_cons_self i V)
  · exact chainA_nodes_avoid subscribersOf st (i :: V) ws s i hch i h1
      (List.mem_cons_self i V)

theorem reachUpA_skip {st : St} {V stack : List ItemId} {i : ItemId}
    (hiV : i ∈ V) (x : ItemId) :
    reachUpA st V (i :: stack) x ↔ reachUpA st V stack x := by
  unfold reachUpA
  constructor
  · rintro ⟨s, hmem, hsV, ws, hch⟩
    rcases List.mem_cons.mp hmem with h1 | h1
    · exact absurd (h1 ▸ hiV) hsV
    · exact ⟨s, h1, hsV, ws, hch⟩
  · rintro ⟨s, hmem, hsV, ws, hch⟩
    exact ⟨s, List.mem_cons_of_mem i hmem, hsV, ws, hch⟩

theorem reachUpA_split_fwd {st : St} {V stack : List ItemId} {i x : ItemId}
    (hiV : i ∉ V) (h : reachUpA st V (i :: stack) x) :
    x = i ∨ reachUpA st (i :: V) (subscribersOf st i ++ stack) x := by
  obtain ⟨s, hmem, hsV, ws, hch⟩ := h
  by_cases hx : x = i
  · exact Or.inl hx
  · right
    by_cases hi2 : i ∈ s :: ws
    · obtain ⟨w, ws2, hw, hwV, hch2⟩ :=
        chainA_split_last subscribersOf st V i ws s x hch hx hi2
      exact ⟨w, List.mem_append_left stack hw, hwV, ws2, hch2⟩
    · have hsi : s ≠ i := fun hc => hi2 (hc ▸ List.mem_cons_self s ws)
      have hsmem : s ∈ stack := by
        rcases List.mem_cons.mp hmem with h1 | h1
        · exact absurd h1 hsi
        · exact h1
      refine ⟨s, List.mem_append_right _ hsmem, ?_, ws, ?_⟩
      · intro hc
        rcases List.mem_cons.mp hc with h1 | h1
        · exact hsi h1
        · exact hsV h1
      · exact chainA_strengthen subscribersOf st i V ws s x hch
          (fun hc => hi2 (List.mem_cons_of_mem s hc))

theorem reachUpA_split_bwd {st : St} {V stack : List ItemId} {i x : ItemId}
    (hiV : i ∉ V)
    (h : reachUpA st (i :: V) (subscribersOf st i ++ stack) x) :
    reachUpA st V (i :: stack) x := by
  obtain ⟨s, hmem, hsV, ws, hch⟩ := h
  have hsV2 : s ∉ V := fun hc => hsV (List.mem_cons_of_mem i hc)
  have hch2 := chainA_weaken subscribersOf st i V ws s x hch
  rcases List.mem_append.mp hmem with h1 | h1
  · exact ⟨i, List.mem_cons_self i stack, hiV, s :: ws, by
      unfold chainA
      simp only [Bool.and_eq_true, decide_eq_true_eq]
      exact ⟨⟨h1, hsV2⟩, hch2⟩⟩
  · exact ⟨s, List.mem_cons_of_mem i h1, hsV2, ws, hch2⟩

theorem caStep_attrsOnly (ident : Ident) (c : AttrName) (delta : Int)
    (st : St) (i : ItemId) : AttrsOnly st (caStep ident c delta st i) := by
  unfold caStep
  exact attrsOnly_trans (attrsOnly_getAttrSetCreate st i ident)
    (attrsOnly_modifyAttrSet _ i ident _)

theorem caStep_shape (ident : Ident) (c : AttrName) (delta : Int) (st : St)
    (i : ItemId) (hlen : i < st.items.length) :
    ∃ aset0 : AttrSet,
      (∀ n, lookupA aset0.attrs n = ownedLookup st i ident n) ∧
      (∀ n, lookupA aset0.cache n = cacheLookup st i ident n) ∧
      (∀ x, x ≠ i → getItem (caStep ident c delta st i) x = getItem st x) ∧
      (∀ id2, id2 ≠ ident →
        lookupA (getItem (caStep ident c delta st i) i).attributes id2
          = lookupA (getItem st i).attributes id2) ∧
      lookupA (getItem (caStep ident c delta st i) i).attributes ident
        = some (aset0.setCache c (.i (cacheCount st i ident c + delta))) := by
  cases hA : getAttrSet st i ident with
  | some a =>
      have hga : getAttrSetCreate st i ident = (a, st) := by
        unfold getAttrSetCreate; rw [hA]
      have hold : (a.getCacheD c (.i 0)).asInt = cacheCount st i ident c := by
        unfold cacheCount cacheLookup
        rw [hA]
        rfl
      have hst2 : caStep ident c delta st i =
          modifyAttrSet st i ident (fun a0 =>
            a0.setCache c (.i (cacheCount st i ident c + delta))) := by
        simp only [caStep, hga, hold]
      have hitem : (getItem (caStep ident c delta st i) i).attributes
          = setA (getItem st i).attributes ident
              (a.setCache c (.i (cacheCount st i ident c + delta))) := by
        rw [hst2]
        unfold modifyAttrSet
        rw [getItem_modifyItem_self st i _ hlen]
        dsimp only
        rw [show lookupA (getItem st i).attributes ident = some a from hA]
      refine ⟨a, ?_, ?_, ?_, ?_, ?_⟩
      · intro n; unfold ownedLookup; rw [hA]
      · intro n; unfold cacheLookup; rw [hA]
      · intro x hx
        rw [hst2]
        unfold modifyAttrSet
        exact getItem_modifyItem_ne st i x _ (fun hc => hx hc.symm)
      · intro id2 hid
        rw [hitem]
        exact lookupA_setA_ne _ _ _ _ (fun hc => hid hc.symm)
      · rw [hitem]
        exact lookupA_setA_eq _ _ _
  | none =>
      have hga : getAttrSetCreate st i ident =
          ((⟨[], []⟩ : AttrSet), modifyItem st i (fun it =>
            { it with attributes := setA it.attributes ident ⟨[], []⟩ })) := by
        unfold getAttrSetCreate; rw [hA]
      have hcc : cacheCount st i ident c = 0 := by
        unfold cacheCount cacheLookup
        rw [hA]
        rfl
      have h0 : (((⟨[], []⟩ : AttrSet)).getCacheD c (.i 0)).asInt = (0 : Int) := rfl
      have hst2 : caStep ident c delta st i =
          modifyAttrSet (modifyItem st i (fun it =>
            { it with attributes := setA it.attributes ident ⟨[], []⟩ })) i ident
            (fun a0 => a0.setCache c (.i (0 + delta))) := by
        simp only [caStep, hga, h0]
      have hitemc : (getItem (modifyItem st i (fun it =>
            { it with attributes := setA it.attributes ident ⟨[], []⟩ })) i).attributes
          = setA (getItem st i).attributes ident ⟨[], []⟩ := by
        rw [getItem_modifyItem_self st i _ hlen]
      have hlenc : i < (modifyItem st i (fun it =>
          { it with attributes := setA it.attributes ident ⟨[], []⟩ })).items.length := by
        rw [modifyItem_length]; exact hlen
      have hitem : (getItem (caStep ident c delta st i) i).attributes
          = setA (setA (getItem st i).attributes ident ⟨[], []⟩) ident
              (AttrSet.setCache ⟨[], []⟩ c (.i (0 + delta))) := by
        rw [hst2]
        unfold modifyAttrSet
        rw [getItem_modifyItem_self _ i _ hlenc]
        dsimp only
        rw [hitemc, lookupA_setA_eq]
      refine ⟨⟨[], []⟩, ?_, ?_, ?_, ?_, ?_⟩
      · intro n; unfold ownedLookup; rw [hA]; rfl
      · intro n; unfold cacheLookup; rw [hA]; rfl
      · intro x hx
        rw [hst2]
        unfold modifyAttrSet
        rw [getItem_modifyItem_ne _ i x _ (fun hc => hx hc.symm),
          getItem_modifyItem_ne st i x _ (fun hc => hx hc.symm)]
      · intro id2 hid
        rw [hitem]
        rw [lookupA_setA_ne _ _ _ _ (fun hc => hid hc.symm),
          lookupA_setA_ne _ _ _ _ (fun hc => hid hc.symm)]
      · rw [hitem, hcc]
        rw [lookupA_setA_eq]

theorem caStep_cache (ident : Ident) (c : AttrName) (delta : Int) (st : St)
    (i : ItemId) (hlen : i < st.items.length) :
    (∀ x id2 n2, ownedLookup (caStep ident c delta st i) x id2 n2
        = ownedLookup st x id2 n2) ∧
    (∀ x id2 n2, ¬(x = i ∧ id2 = ident ∧ n2 = c) →
        cacheCount (caStep ident c delta st i) x id2 n2 = cacheCount st x id2 n2) ∧
    cacheCount (caStep ident c delta st i) i ident c
      = cacheCount st i ident c + delta := by
  obtain ⟨aset0, hown0, hcache0, hother, hid, hat⟩ :=
    caStep_shape ident c delta st i hlen
  refine ⟨?_, ?_, ?_⟩
  · intro x id2 n2
    by_cases hx : x = i
    · subst hx
      by_cases hi2 : id2 = ident
      · subst hi2
        unfold ownedLookup getAttrSet
        rw [hat]
        exact hown0 n2
      · unfold ownedLookup getAttrSet
        rw [hid id2 hi2]
    · unfold ownedLookup getAttrSet
      rw [hother x hx]
  · intro x id2 n2 hne
    by_cases hx : x = i
    · subst hx
      by_cases hi2 : id2 = ident
      · subst hi2
        have hn2 : n2 ≠ c := fun hc => hne ⟨rfl, rfl, hc⟩
        unfold cacheCount cacheLookup getAttrSet
        rw [hat]
        show ((lookupA (setA aset0.cache c _) n2).getD (.i 0)).asInt = _
        rw [lookupA_setA_ne _ _ _ _ (fun hc => hn2 hc.symm), hcache0 n2]
        rfl
      · unfold cacheCount cacheLookup getAttrSet
        rw [hid id2 hi2]
    · unfold cacheCount cacheLookup getAttrSet
      rw [hother x hx]
  · unfold cacheCount cacheLookup getAttrSet
    rw [hat]
    show ((lookupA (setA aset0.cache c _) c).getD (.i 0)).asInt = _
    rw [lookupA_setA_eq]
    rfl

theorem edgesWFb_congr {st st2 : St}
    (h : ∀ u, subscribersOf st2 u = subscribersOf st u)
    (hl : st2.items.length = st.items.length) :
    edgesWFb st2 = edgesWFb st := by
  unfold edgesWFb
  simp only [h, hl]

theorem edgesWF_spec {st : St} (h : edgesWFb st = true) {i : ItemId}
    (hi : i < st.items.length) :
    ∀ s ∈ subscribersOf st i, s < st.items.length := by
  unfold edgesWFb at h
  rw [List.all_eq_true] at h
  have h2 := h i (List.mem_range.mpr hi)
  simp only [List.all_eq_true, decide_eq_true_eq] at h2
  exact h2

theorem modifyCountRun_cons_visited (ident : Ident) (c : AttrName)
    (delta : Int) (fuel : Nat) (i : ItemId) (stack V : List ItemId) (st : St)
    (hiv : i ∈ V) :
    modifyCountRun ident c delta (fuel + 1) (i :: stack) V st
      = modifyCountRun ident c delta fuel stack V st := by
  conv_lhs => unfold modifyCountRun
  rw [if_pos (by simp [hiv])]

theorem modifyCountRun_cons_go (ident : Ident) (c : AttrName)
    (delta : Int) (fuel : Nat) (i : ItemId) (stack V : List ItemId) (st : St)
    (hd : ¬ delta = 0) (hiv : i ∉ V) :
    modifyCountRun ident c delta (fuel + 1) (i :: stack) V st
      = modifyCountRun ident c delta fuel
          (subscribersOf (caStep ident c delta st i) i ++ stack) (i :: V)
          (caStep ident c delta st i) := by
  conv_lhs => unfold modifyCountRun
  rw [if_neg (by simp [hd, hiv])]
  rfl

/-- Per-propagation correctness of `__recursive_modify_count`: a completing
worklist run adds `delta` exactly once to the `(identifier, storage)` cached
count of every item its walk reaches — each item at most once, diamonds
included, thanks to the shared visited set — and changes nothing else: no
other cached count, no owned attribute, no edge. -/
theorem modifyCountRun_spec (ident : Ident) (c : AttrName) {delta : Int}
    (hd : delta ≠ 0) :
    ∀ (fuel : Nat) (stack V : List ItemId) (st st' : St),
    edgesWFb st = true →
    (∀ s ∈ stack, s < st.items.length) →
    modifyCountRun ident c delta fuel stack V st = some st' →
    (∀ u, subscribersOf st' u = subscribersOf st u) ∧
    st'.items.length = st.items.length ∧
    (∀ x id2 n2, ownedLookup st' x id2 n2 = ownedLookup st x id2 n2) ∧
    (∀ x id2 n2, ¬(id2 = ident ∧ n2 = c ∧ reachUpA st V stack x) →
        cacheCount st' x id2 n2 = cacheCount st x id2 n2) ∧
    (∀ x, reachUpA st V stack x →
        cacheCount st' x ident c = cacheCount st x ident c + delta) := by
  intro fuel
  induction fuel with
  | zero =>
      intro stack V st st' _ _ hrun
      simp [modifyCountRun] at hrun
  | succ fuel ih =>
      intro stack V st st' hWF hstack hrun
      cases stack with
      | nil =>
          have hst : st = st' := by simpa [modifyCountRun] using hrun
          subst hst
          refine ⟨fun u => rfl, rfl, fun x id2 n2 => rfl, fun x id2 n2 _ => rfl, ?_⟩
          intro x hx
          exact absurd hx (by unfold reachUpA; rintro ⟨s, hs, -⟩; simp at hs)
      | cons i stack =>
          by_cases hiv : i ∈ V
          · rw [modifyCountRun_cons_visited ident c delta fuel i stack V st hiv]
              at hrun
            obtain ⟨h1, h2, h3, h4, h5⟩ := ih stack V st st' hWF
              (fun s hs => hstack s (List.mem_cons_of_mem i hs)) hrun
            refine ⟨h1, h2, h3, ?_, ?_⟩
            · intro x id2 n2 hne
              exact h4 x id2 n2
                (fun h => hne ⟨h.1, h.2.1, (reachUpA_skip hiv x).mpr h.2.2⟩)
            · intro x hx
              exact h5 x ((reachUpA_skip hiv x).mp hx)
          · rw [modifyCountRun_cons_go ident c delta fuel i stack V st hd hiv]
              at hrun
            have hleni : i < st.items.length := hstack i (List.mem_cons_self i stack)
            have hAO := caStep_attrsOnly ident c delta st i
            have hsub : ∀ u, subscribersOf (caStep ident c delta st i) u
                = subscribersOf st u := fun u => (hAO.2.2 u).2.2.2
            have hlen2 : (caStep ident c delta st i).items.length
                = st.items.length := hAO.2.1
            have hWF2 : edgesWFb (caStep ident c delta st i) = true := by
              rw [edgesWFb_congr hsub hlen2]; exact hWF
            have hstack2 : ∀ s ∈ subscribersOf (caStep ident c delta st i) i
                ++ stack, s < (caStep ident c delta st i).items.length := by
              intro s hs
              rw [hlen2]
              rcases List.mem_append.mp hs with h1 | h1
              · rw [hsub i] at h1
                exact edgesWF_spec hWF hleni s h1
              · exact hstack s (List.mem_cons_of_mem i h1)
            obtain ⟨h1, h2, h3, h4, h5⟩ := ih _ (i :: V) _ st' hWF2 hstack2 hrun
            obtain ⟨hO, hC, hCi⟩ := caStep_cache ident c delta st i hleni
            have hreach : ∀ x,
                reachUpA (caStep ident c delta st i) (i :: V)
                  (subscribersOf (caStep ident c delta st i) i ++ stack) x ↔
                reachUpA st (i :: V) (subscribersOf st i ++ stack) x := by
              intro x
              rw [hsub i]
              exact reachUpA_congr hsub (i :: V) _ x
            refine ⟨?_, ?_, ?_, ?_, ?_⟩
            · intro u
              rw [h1 u, hsub u]
            · rw [h2, hlen2]
            · intro x id2 n2
              rw [h3 x id2 n2, hO x id2 n2]
            · intro x id2 n2 hne
              rw [h4 x id2 n2
                  (fun h => hne ⟨h.1, h.2.1,
                    reachUpA_split_bwd hiv ((hreach x).mp h.2.2)⟩),
                hC x id2 n2
                  (fun h => hne ⟨h.2.1, h.2.2, by
                    rw [h.1]; exact reachUpA_head hiv stack⟩)]
            · intro x hx
              rcases reachUpA_split_fwd hiv hx with hxi | hr
              · rw [hxi]
                rw [h4 i ident c
                    (fun h => reachUpA_not_head st V _ i ((hreach i).mp h.2.2)),
                  hCi]
              · have hxne : x ≠ i :=
                  fun he => reachUpA_not_head st V _ i (he ▸ hr)
                rw [h5 x ((hreach x).mpr hr), hC x ident c (fun h => hxne h.1)]

theorem reachUpA_single (st : St) (i x : ItemId) :
    reachUpA st [] [i] x ↔ upReach st i x := by
  unfold reachUpA upReach
  constructor
  · rintro ⟨s, hs, -, ws, hch⟩
    have : s = i := by simpa using hs
    subst this
    exact ⟨ws, hch⟩
  · rintro ⟨ws, hch⟩
    exact ⟨i, by simp, by simp, ws, hch⟩

theorem modifyCountRun_map_spec (ident : Ident) (c : AttrName) (d : Int)
    (fuel : Nat) (i : ItemId) (st st' : St)
    (hWF : edgesWFb st = true) (hi : i < st.items.length)
    (hm : modifyCountRun ident c d fuel [i] [] st = some st') :
    (∀ x, upReach st i x →
        cacheCount st' x ident c = cacheCount st x ident c + d) ∧
    (∀ x, ¬ upReach st i x →
        cacheCount st' x ident c = cacheCount st x ident c) ∧
    (∀ x id2 n2, ¬(id2 = ident ∧ n2 = c) →
        cacheCount st' x id2 n2 = cacheCount st x id2 n2) ∧
    (∀ x id2 n2, ownedLookup st' x id2 n2 = ownedLookup st x id2 n2) := by
  by_cases hz : d = 0
  · subst hz
    have hst : st' = st := by
      rcases modifyCountRun_zero ident c fuel [i] [] st with h | h
      · rw [h] at hm; exact absurd hm (by simp)
      · rw [h] at hm; simpa using hm.symm
    subst hst
    exact ⟨fun x _ => by simp, fun x _ => rfl, fun x id2 n2 _ => rfl,
      fun x id2 n2 => rfl⟩
  · obtain ⟨-, -, h3, h4, h5⟩ := modifyCountRun_spec ident c hz fuel [i] [] st st'
      hWF (by intro s hs; simp at hs; subst hs; exact hi) hm
    refine ⟨?_, ?_, ?_, h3⟩
    · intro x hx
      exact h5 x ((reachUpA_single st i x).mpr hx)
    · intro x hx
      exact h4 x ident c (fun h => hx ((reachUpA_single st i x).mp h.2.2))
    · intro x id2 n2 hne
      exact h4 x id2 n2 (fun h => hne ⟨h.1, h.2.1⟩)

/-- C2 (amended, the part the code guarantees): on every completing write of
a counted source attribute, `CountAttribute.set_attribute` computes
`delta = count(new) − count(old)` (old counting 0 when not yet set) and the
propagation adds `delta` to the `(identifier, storage)` cached count of the
written item and of every item upstream of it along subscriber edges —
each such item exactly once, diamond-shaped DAGs included, thanks to the
propagation-wide visited set — and changes no other cached count, no item
below or beside the walk, and no owned attribute anywhere.  (The claim's
global-sum form is false for dynamically joined graphs, see the
counterexample: `CountAttribute` has no `pre_subscribe`, so a subscription
made after writes does not transfer existing counts.) -/
theorem claim2_count_delta_once
    (attrs : List (AttrName × AttrName × (Val → Int))) (fuel : Nat)
    (st st' : St) (i : ItemId) (ident : Ident) (name c : AttrName)
    (f : Val → Int) (v : Val)
    (hWF : edgesWFb st = true)
    (hi : i < st.items.length)
    (hs : ¬ name ∈ caStorages attrs)
    (hc : caCounted attrs name = some (c, f))
    (hrun : caSetAttribute attrs fuel st i ident name v = some (.ok (), st')) :
    (∀ x, upReach st i x →
        cacheCount st' x ident c = cacheCount st x ident c
          + countDelta f (ownedLookup st i ident name) v) ∧
    (∀ x, ¬ upReach st i x →
        cacheCount st' x ident c = cacheCount st x ident c) ∧
    (∀ x id2 n2, ¬(id2 = ident ∧ n2 = c) →
        cacheCount st' x id2 n2 = cacheCount st x id2 n2) ∧
    (∀ x id2 n2, ownedLookup st' x id2 n2 = ownedLookup st x id2 n2) := by
  unfold caSetAttribute at hrun
  rw [if_neg hs, hc] at hrun
  cases hA : getAttrSet st i ident with
  | none =>
      rw [hA] at hrun
      dsimp only at hrun
      have hdelta : countDelta f (ownedLookup st i ident name) v = f v := by
        unfold countDelta ownedLookup
        rw [hA]
        exact sub_zero _
      cases hm : modifyCountRun ident c (f v) fuel [i] [] st with
      | none => rw [hm] at hrun; exact absurd hrun (by simp)
      | some s =>
          rw [hm] at hrun
          have hst : s = st' := by
            have h2 := hrun
            simp at h2
            exact h2
          subst hst
          rw [hdelta]
          exact modifyCountRun_map_spec ident c (f v) fuel i st s hWF hi hm
  | some aset =>
      rw [hA] at hrun
      dsimp only at hrun
      cases hl : lookupA aset.attrs name with
      | none =>
          rw [hl] at hrun
          dsimp only at hrun
          have hdelta : countDelta f (ownedLookup st i ident name) v = f v := by
            unfold countDelta ownedLookup
            rw [hA]
            dsimp only
            rw [hl]
            exact sub_zero _
          cases hm : modifyCountRun ident c (f v) fuel [i] [] st with
          | none => rw [hm] at hrun; exact absurd hrun (by simp)
          | some s =>
              rw [hm] at hrun
              have hst : s = st' := by
                have h2 := hrun
                simp at h2
                exact h2
              subst hst
              rw [hdelta]
              exact modifyCountRun_map_spec ident c (f v) fuel i st s hWF hi hm
      | some w =>
          rw [hl] at hrun
          dsimp only at hrun
          have hdelta : countDelta f (ownedLookup st i ident name) v
              = f v - f w := by
            unfold countDelta ownedLookup
            rw [hA]
            dsimp only
            rw [hl]
          cases hm : modifyCountRun ident c (f v - f w) fuel [i] [] st with
          | none => rw [hm] at hrun; exact absurd hrun (by simp)
          | some s =>
              rw [hm] at hrun
              have hst : s = st' := by
                have h2 := hrun
                simp at h2
                exact h2
              subst hst
              rw [hdelta]
              exact modifyCountRun_map_spec ident c (f v - f w) fuel i st s
                hWF hi hm

/-- Witness for C2 (amended): on the S4 prefix (counter 0 over red items 1
and 2, nothing written yet), writing `activate = True` on red item 1 adds
`1` to the `count_activate` cache of item 1 and of the upstream counter 0,
exactly once each, and changes nothing else. -/
theorem claim2_delta_witness :
    edgesWFb w2St = true ∧
    caSetAttribute caAttrs 99 w2St 1 "red_point" "activate" (.b true)
      = some (.ok (), (run2.getD (.ok (), w2St)).2) ∧
    ((∀ x, upReach w2St 1 x →
        cacheCount (run2.getD (.ok (), w2St)).2 x "red_point" "count_activate"
          = cacheCount w2St x "red_point" "count_activate"
            + countDelta defaultCountFunction
                (ownedLookup w2St 1 "red_point" "activate") (.b true)) ∧
     (∀ x, ¬ upReach w2St 1 x →
        cacheCount (run2.getD (.ok (), w2St)).2 x "red_point" "count_activate"
          = cacheCount w2St x "red_point" "count_activate") ∧
     (∀ x id2 n2, ¬(id2 = "red_point" ∧ n2 = "count_activate") →
        cacheCount (run2.getD (.ok (), w2St)).2 x id2 n2
          = cacheCount w2St x id2 n2) ∧
     (∀ x id2 n2, ownedLookup (run2.getD (.ok (), w2St)).2 x id2 n2
          = ownedLookup w2St x id2 n2)) :=
  ⟨by decide, by decide,
   claim2_count_delta_once caAttrs 99 w2St (run2.getD (.ok (), w2St)).2 1
     "red_point" "activate" "count_activate" defaultCountFunction (.b true)
     (by decide) (by decide) (by decide) rfl (by decide)⟩

end NotifGraph
